import Mathlib

/-!
Shallow embedding of the rdns recursive DNS resolver (Rust) and proofs about it.

Conventions of the embedding:
* Rust byte slices (`&[u8]`) are `List Nat`; every byte produced by the code is < 256
  because the Rust types are `u8`/`u16`/`u32` — where a Rust `as` cast can truncate,
  the model computes the truncation (`% 256`, `% 65536`, `&&& 0xFF`) explicitly.
* Rust `String`s are modelled as their UTF-8 byte sequences (`List Nat`): `split('.')`
  becomes splitting on byte 46, `str::ends_with` becomes list-suffix, `len()` is the
  byte length, `as_bytes()` is the identity.
* Fallible code (`nom` parsers, `anyhow::Result`) returns an explicit result type.
  The recursive name decoder of `parser.rs` is not structurally terminating, so the
  model adds a fuel argument; `PR.outOfFuel` marks fuel exhaustion (the Rust code
  at that point simply keeps recursing).  Rust panics are marked by dedicated
  result constructors (`PR.panicked` for the explicit `panic!` branch of
  `domain_name`, `PR.sliceOob` for the out-of-range slice `&original[j..]`).
* Network and randomness are modelled as oracle functions passed as parameters.
-/

/-! ## Data model (`dnsparse/src/types.rs`) -/

/-- IPv4 address: four octets (`std::net::Ipv4Addr`). -/
structure Ipv4Addr where
  o0 : Nat
  o1 : Nat
  o2 : Nat
  o3 : Nat
deriving DecidableEq, Repr

/-- IPv6 address: eight 16-bit groups (`std::net::Ipv6Addr`). -/
structure Ipv6Addr where
  s0 : Nat
  s1 : Nat
  s2 : Nat
  s3 : Nat
  s4 : Nat
  s5 : Nat
  s6 : Nat
  s7 : Nat
deriving DecidableEq, Repr

/-- Response code enumeration (`types.rs`, `ResponseCode`). -/
inductive ResponseCode where
  | NOERROR
  | FORMERR
  | SERVFAIL
  | NXDOMAIN
  | NOTIMP
  | REFUSED
deriving DecidableEq, Repr

namespace ResponseCode

/-- Discriminant value of the Rust enum (`ResponseCode as u16`). -/
def toNum : ResponseCode → Nat
  | NOERROR => 0
  | FORMERR => 1
  | SERVFAIL => 2
  | NXDOMAIN => 3
  | NOTIMP => 4
  | REFUSED => 5

/-- Translation of `ResponseCode::from_num`. -/
def from_num (num : Nat) : ResponseCode :=
  if num = 1 then FORMERR
  else if num = 2 then SERVFAIL
  else if num = 3 then NXDOMAIN
  else if num = 4 then NOTIMP
  else if num = 5 then REFUSED
  else NOERROR

end ResponseCode

/-- Query type enumeration (`types.rs`, `QueryType`). -/
inductive QueryType where
  | UNKNOWN (n : Nat)
  | A
  | CNAME
  | NS
  | MX
  | AAAA
deriving DecidableEq, Repr

namespace QueryType

/-- Translation of `QueryType::to_num`. -/
def to_num : QueryType → Nat
  | UNKNOWN x => x
  | A => 1
  | CNAME => 5
  | NS => 2
  | MX => 15
  | AAAA => 28

/-- Translation of `QueryType::from_num`. -/
def from_num (num : Nat) : QueryType :=
  if num = 1 then A
  else if num = 2 then NS
  else if num = 5 then CNAME
  else if num = 15 then MX
  else if num = 28 then AAAA
  else UNKNOWN num

end QueryType

/-- DNS header (`types.rs`, `DnsHeader`).  Numeric fields carry the values of the
Rust `u16`/`u8` fields; theorems state the corresponding range bounds explicitly
where they matter. -/
structure DnsHeader where
  id : Nat
  response : Bool
  opcode : Nat
  authoritative_answer : Bool
  truncated_message : Bool
  recursion_desired : Bool
  recursion_available : Bool
  z : Bool
  authed_data : Bool
  checking_disabled : Bool
  rescode : ResponseCode
  questions : Nat
  answers : Nat
  authoritative_entries : Nat
  resource_entries : Nat
deriving DecidableEq, Repr

/-- Translation of `DnsHeader::flags`.  The Rust expression ORs `u16`-cast booleans
shifted into place; `(self.opcode as u16) << 11` is a `u16` shift whose overflowing
bits are discarded, hence the `% 65536`. -/
def DnsHeader.flags (h : DnsHeader) : Nat :=
  h.rescode.toNum |||
  (h.checking_disabled.toNat <<< 4) |||
  (h.authed_data.toNat <<< 5) |||
  (h.z.toNat <<< 6) |||
  (h.recursion_available.toNat <<< 7) |||
  (h.recursion_desired.toNat <<< 8) |||
  (h.truncated_message.toNat <<< 9) |||
  (h.authoritative_answer.toNat <<< 10) |||
  ((h.opcode <<< 11) % 65536) |||
  (h.response.toNat <<< 15)

/-- DNS question (`types.rs`, `DnsQuestion`): name in dotted form (UTF-8 bytes) and
query type.  The QCLASS is not represented, exactly as in the source. -/
structure DnsQuestion where
  name : List Nat
  qtype : QueryType
deriving DecidableEq, Repr

/-- Resource record (`types.rs`, `DnsRecord`). -/
inductive DnsRecord where
  | A (domain : List Nat) (addr : Ipv4Addr) (ttl : Nat)
  | NS (domain : List Nat) (host : List Nat) (ttl : Nat)
  | CNAME (domain : List Nat) (host : List Nat) (ttl : Nat)
  | MX (domain : List Nat) (priority : Nat) (host : List Nat) (ttl : Nat)
  | AAAA (domain : List Nat) (addr : Ipv6Addr) (ttl : Nat)
  | UNKNOWN (domain : List Nat) (qtype : Nat) (data_len : Nat) (ttl : Nat)
deriving DecidableEq, Repr

/-- DNS packet (`types.rs`, `DnsPacket`). -/
structure DnsPacket where
  header : DnsHeader
  questions : List DnsQuestion
  answers : List DnsRecord
  authorities : List DnsRecord
  resources : List DnsRecord
deriving DecidableEq, Repr

namespace DnsPacket

/-- Translation of `DnsPacket::first_question`. -/
def first_question (p : DnsPacket) : Option DnsQuestion :=
  p.questions.head?

/-- Translation of `DnsPacket::has_answers`. -/
def has_answers (p : DnsPacket) : Bool :=
  !p.answers.isEmpty

/-- Translation of `DnsPacket::rescode`. -/
def rescode (p : DnsPacket) : ResponseCode :=
  p.header.rescode

/-- Translation of `DnsPacket::qtype`. -/
def qtype (p : DnsPacket) : Option QueryType :=
  p.first_question.map (fun q => q.qtype)

/-- Translation of `DnsPacket::qname`. -/
def qname (p : DnsPacket) : Option (List Nat) :=
  p.first_question.map (fun q => q.name)

/-- Translation of `DnsPacket::get_random_a`: first A record of the answer
section (`find_map` over the answers). -/
def get_random_a (p : DnsPacket) : Option Ipv4Addr :=
  p.answers.findSome? (fun r =>
    match r with
    | .A _ addr _ => some addr
    | _ => none)

/-- Translation of `DnsPacket::get_ns`: (owner, target) pairs of the NS records
of the authority section, in order. -/
def get_ns (p : DnsPacket) : List (List Nat × List Nat) :=
  p.authorities.filterMap (fun r =>
    match r with
    | .NS domain host _ => some (domain, host)
    | _ => none)

/-- Translation of `DnsPacket::get_ns_for`: keep the pairs whose owner name is a
byte-suffix of `qname` (Rust `qname.ends_with(domain)`). -/
def get_ns_for (p : DnsPacket) (qn : List Nat) : List (List Nat × List Nat) :=
  (p.get_ns).filter (fun dh => dh.1.isSuffixOf qn)

/-- Translation of `DnsPacket::get_resolved_ns`: first address of an additional
A record owned by the target of a matching authority NS record. -/
def get_resolved_ns (p : DnsPacket) (qn : List Nat) : Option Ipv4Addr :=
  ((p.get_ns_for qn).flatMap (fun dh =>
    p.resources.filterMap (fun r =>
      match r with
      | .A domain addr _ => if domain = dh.2 then some addr else none
      | _ => none))).head?

/-- Translation of `DnsPacket::get_unresolved_ns`: target host of the first
matching authority NS record. -/
def get_unresolved_ns (p : DnsPacket) (qn : List Nat) : Option (List Nat) :=
  ((p.get_ns_for qn).map (fun dh => dh.2)).head?

end DnsPacket

/-! ## The specification-side description of `get_resolved_ns` (claim C9).

The definitions below follow the spec text, not the source: iterate the
authority-section NS records in order; keep those whose owner name is a literal
ends-with suffix of the query name (the root owner, the empty string, matching
everything); for each, iterate the additional-section A records owned by the NS
target; the result is the first address produced, none if no such pair exists. -/

/-- Specification wording: `d` is a literal ends-with suffix of `q` (the dotted
forms compared as byte strings); the empty owner matches every query name. -/
def specEndsWith (q d : List Nat) : Prop :=
  d.length ≤ q.length ∧ q.drop (q.length - d.length) = d

instance (q d : List Nat) : Decidable (specEndsWith q d) := by
  unfold specEndsWith; infer_instance

/-- Specification wording: the A-record addresses of the additional section whose
owner equals the given host, in section order. -/
def specGlueFor (resources : List DnsRecord) (host : List Nat) : List Ipv4Addr :=
  match resources with
  | [] => []
  | .A domain addr _ :: rest =>
    if domain = host then addr :: specGlueFor rest host else specGlueFor rest host
  | _ :: rest => specGlueFor rest host

/-- Specification wording for `get_resolved_ns`: walk the authority section in
order; for each NS record whose owner is an ends-with suffix of the query name,
look for glue; return the first address found overall. -/
def specResolvedNs (auth : List DnsRecord) (resources : List DnsRecord)
    (qn : List Nat) : Option Ipv4Addr :=
  match auth with
  | [] => none
  | .NS domain host _ :: rest =>
    if specEndsWith qn domain then
      match specGlueFor resources host with
      | addr :: _ => some addr
      | [] => specResolvedNs rest resources qn
    else specResolvedNs rest resources qn
  | _ :: rest => specResolvedNs rest resources qn

/-! ## UTF-8 lossy decoding (`String::from_utf8_lossy`)

The parser turns raw label bytes into a `String` via `from_utf8_lossy`; the
model keeps the resulting UTF-8 bytes.  Valid sequences are copied verbatim;
a maximal prefix of a valid sequence that cannot be completed is replaced by
the replacement character U+FFFD (bytes ef bf bd), per the WHATWG decoding
used by Rust. -/

/-- UTF-8 bytes of the replacement character U+FFFD. -/
def replChar : List Nat := [0xef, 0xbf, 0xbd]

/-- Continuation byte test, 0x80..=0xbf. -/
def isCont (c : Nat) : Bool := 0x80 ≤ c && c ≤ 0xbf

/-- Allowed first continuation byte of a three-byte sequence. -/
def cont3ok (b c : Nat) : Bool :=
  if b = 0xe0 then 0xa0 ≤ c && c ≤ 0xbf
  else if b = 0xed then 0x80 ≤ c && c ≤ 0x9f
  else isCont c

/-- Allowed first continuation byte of a four-byte sequence. -/
def cont4ok (b c : Nat) : Bool :=
  if b = 0xf0 then 0x90 ≤ c && c ≤ 0xbf
  else if b = 0xf4 then 0x80 ≤ c && c ≤ 0x8f
  else isCont c

/-- Model of `String::from_utf8_lossy` on raw bytes, returning the bytes of the
resulting string. -/
def utf8Lossy : List Nat → List Nat
  | [] => []
  | b :: rest =>
    if b < 0x80 then b :: utf8Lossy rest
    else if b < 0xc2 then replChar ++ utf8Lossy rest
    else if b < 0xe0 then
      match rest with
      | [] => replChar
      | c :: r =>
        if isCont c then b :: c :: utf8Lossy r else replChar ++ utf8Lossy (c :: r)
    else if b < 0xf0 then
      match rest with
      | [] => replChar
      | c :: r =>
        if cont3ok b c then
          match r with
          | [] => replChar
          | d :: r2 =>
            if isCont d then b :: c :: d :: utf8Lossy r2
            else replChar ++ utf8Lossy (d :: r2)
        else replChar ++ utf8Lossy (c :: r)
    else if b < 0xf5 then
      match rest with
      | [] => replChar
      | c :: r =>
        if cont4ok b c then
          match r with
          | [] => replChar
          | d :: r2 =>
            if isCont d then
              match r2 with
              | [] => replChar
              | e :: r3 =>
                if isCont e then b :: c :: d :: e :: utf8Lossy r3
                else replChar ++ utf8Lossy (e :: r3)
            else replChar ++ utf8Lossy (d :: r2)
        else replChar ++ utf8Lossy (c :: r)
    else replChar ++ utf8Lossy rest

/-! ## Wire parser (`dnsparse/src/parser.rs`)

Parsers consume a `List Nat` of bytes and produce a result in `PR`:
`ok rest value` mirrors nom's `Ok((rest, value))`, `err` mirrors a nom parse
error, `panicked` marks the explicit `panic!` branch of `domain_name`,
`sliceOob` marks the panicking slice `&original[jump_location..]` when the
target offset exceeds the packet length, and `outOfFuel` marks exhaustion of
the fuel that the model adds to the (otherwise unbounded) recursion of
`domain_name`. -/

/-- Result of a nom-style parser in the model. -/
inductive PR (α : Type) where
  | ok (rest : List Nat) (val : α)
  | err
  | panicked
  | sliceOob
  | outOfFuel
deriving DecidableEq, Repr

/-- Translation of nom's `be_u8`. -/
def be_u8 : List Nat → PR Nat
  | [] => .err
  | b :: rest => .ok rest b

/-- Translation of nom's `be_u16` (big endian). -/
def be_u16 : List Nat → PR Nat
  | b0 :: b1 :: rest => .ok rest (b0 * 256 + b1)
  | _ => .err

/-- Translation of nom's `be_u32` (big endian). -/
def be_u32 : List Nat → PR Nat
  | b0 :: b1 :: b2 :: b3 :: rest =>
    .ok rest (b0 * 2 ^ 24 + b1 * 2 ^ 16 + b2 * 256 + b3)
  | _ => .err

/-- Translation of nom's `take` (complete): exactly `n` bytes or an error. -/
def take_bytes (n : Nat) (l : List Nat) : PR (List Nat) :=
  if n ≤ l.length then .ok (l.drop n) (l.take n) else .err

/-- Translation of `ipv4`: four octets. -/
def pIpv4 (l : List Nat) : PR Ipv4Addr :=
  match l with
  | q0 :: q1 :: q2 :: q3 :: rest => .ok rest (Ipv4Addr.mk q0 q1 q2 q3)
  | _ => .err

/-- Translation of `ipv6`: eight big-endian 16-bit groups. -/
def pIpv6 (l : List Nat) : PR Ipv6Addr :=
  match be_u16 l with
  | .ok l a =>
    match be_u16 l with
    | .ok l b =>
      match be_u16 l with
      | .ok l c =>
        match be_u16 l with
        | .ok l d =>
          match be_u16 l with
          | .ok l e =>
            match be_u16 l with
            | .ok l f =>
              match be_u16 l with
              | .ok l g =>
                match be_u16 l with
                | .ok l h => .ok l (Ipv6Addr.mk a b c d e f g h)
                | _ => .err
              | _ => .err
            | _ => .err
          | _ => .err
        | _ => .err
      | _ => .err
    | _ => .err
  | _ => .err

/-- Translation of `domain_fragment`: a length byte followed by that many label
octets, decoded with `from_utf8_lossy`. -/
def domain_fragment (l : List Nat) : PR (List Nat) :=
  match l with
  | [] => .err
  | size :: rest =>
    if size ≤ rest.length then .ok (rest.drop size) (utf8Lossy (rest.take size))
    else .err

/-- Fuel-indexed helper for nom's `many0(domain_fragment())`: parse fragments
until the first failure, returning the unconsumed rest and the fragments.
Each successful `domain_fragment` consumes at least one byte, so any fuel of at
least the input length is enough (`many0FragmentsF_fuel` below); the fuel keeps
the recursion structural. -/
def many0FragmentsF : Nat → List Nat → List Nat × List (List Nat)
  | 0, l => (l, [])
  | fuel + 1, l =>
    match domain_fragment l with
    | .ok rest frag =>
      let p := many0FragmentsF fuel rest
      (p.1, frag :: p.2)
    | _ => (l, [])

/-- Translation of `many0(domain_fragment())`: parse fragments until the first
failure (nom's `many0` itself never fails here). -/
def many0Fragments (l : List Nat) : List Nat × List (List Nat) :=
  many0FragmentsF l.length l

/-- Byte value of `JUMP_REQUIRED_FLAG`. -/
def JUMP_REQUIRED_FLAG : Nat := 0xc0

/-- Byte value of `NULL_BYTE`. -/
def NULL_BYTE : Nat := 0x00

/-- Translation of `isperse` (`utils.rs`): fold the fragments with a leading dot
before each, then drop the first character. -/
def isperse (input : List (List Nat)) : List Nat :=
  (input.foldl (fun acc x => acc ++ 46 :: x) []).drop 1

/-- Scanning step of `domain_name`: the two `take_while` parses and the
`min_by_key` selection.  `take_while(p)` in nom returns `Ok((rest, taken))`,
so the pair is (dropWhile, takeWhile); `min_by_key(o0x00, o0xc0, key)` keeps
its first argument when the keys tie, so the input is split at the first
`0x00` or `0xc0` byte, whichever comes first. -/
def nameScan (input : List Nat) : List Nat × List Nat :=
  let o00 := (input.dropWhile (fun c => c ≠ NULL_BYTE),
              input.takeWhile (fun c => c ≠ NULL_BYTE))
  let oc0 := (input.dropWhile (fun c => c ≠ JUMP_REQUIRED_FLAG),
              input.takeWhile (fun c => c ≠ JUMP_REQUIRED_FLAG))
  if o00.2.length ≤ oc0.2.length then o00 else oc0

/-- Translation of `domain_name`.  The scan (`nameScan`) splits the input at
the first `0x00` or `0xc0` byte; the prefix is fed to
`many0(domain_fragment())` (leftover prefix bytes are silently discarded);
then the stop byte dispatches: `0xc0` reads one more byte and recurses from
that absolute offset of the original message, `0x00` terminates, and anything
else is the `panic!` branch.  `fuel` bounds the recursion depth of the model;
the Rust code has no such bound. -/
def domain_name (original : List Nat) : Nat → List Nat → PR (List Nat)
  | 0, _ => .outOfFuel
  | fuel + 1, input =>
    let sel := nameScan input
    let fragments := (many0Fragments sel.2).2
    match sel.1 with
    | [] => .err
    | next :: rest =>
      if next = JUMP_REQUIRED_FLAG then
        match rest with
        | [] => .err
        | jump_location :: rest2 =>
          if jump_location ≤ original.length then
            match domain_name original fuel (original.drop jump_location) with
            | .ok _ s => .ok rest2 (isperse (fragments ++ [s]))
            | r => r
          else .sliceOob
      else if next = NULL_BYTE then .ok rest (isperse fragments)
      else .panicked

/-- Translation of `header`: 12 octets, big endian, with the flag bits extracted
exactly as in the source. -/
def pHeader (input : List Nat) : PR DnsHeader :=
  match be_u16 input with
  | .ok rest id =>
    match be_u8 rest with
    | .ok rest a =>
      match be_u8 rest with
      | .ok rest b =>
        match be_u16 rest with
        | .ok rest questions =>
          match be_u16 rest with
          | .ok rest answers =>
            match be_u16 rest with
            | .ok rest authoritative_entries =>
              match be_u16 rest with
              | .ok rest resource_entries =>
                .ok rest
                  { id := id
                    response := decide (0 < a &&& (1 <<< 7))
                    opcode := (a >>> 3) &&& 0x0F
                    authoritative_answer := decide (0 < a &&& (1 <<< 2))
                    truncated_message := decide (0 < a &&& (1 <<< 1))
                    recursion_desired := decide (0 < a &&& (1 <<< 0))
                    recursion_available := decide (0 < b &&& (1 <<< 7))
                    z := decide (0 < b &&& (1 <<< 6))
                    authed_data := decide (0 < b &&& (1 <<< 5))
                    checking_disabled := decide (0 < b &&& (1 <<< 4))
                    rescode := ResponseCode.from_num (b &&& 0x0F)
                    questions := questions
                    answers := answers
                    authoritative_entries := authoritative_entries
                    resource_entries := resource_entries }
              | _ => .err
            | _ => .err
          | _ => .err
        | _ => .err
      | _ => .err
    | _ => .err
  | _ => .err

/-- Translation of `question`: a name, a 16-bit qtype, a discarded qclass. -/
def pQuestion (original : List Nat) (fuel : Nat) (input : List Nat) : PR DnsQuestion :=
  match domain_name original fuel input with
  | .ok rest domain =>
    match be_u16 rest with
    | .ok rest qt =>
      match be_u16 rest with
      | .ok rest _qclass => .ok rest ⟨domain, QueryType.from_num qt⟩
      | _ => .err
    | _ => .err
  | .err => .err
  | .panicked => .panicked
  | .sliceOob => .sliceOob
  | .outOfFuel => .outOfFuel

/-- Translation of `answer`: name, type, class (discarded), ttl, rdlength,
rdlength bytes of rdata, then rdata interpretation per type. -/
def pAnswer (original : List Nat) (fuel : Nat) (input : List Nat) : PR DnsRecord :=
  match domain_name original fuel input with
  | .ok rest domain =>
    match be_u16 rest with
    | .ok rest qnum =>
      match be_u16 rest with
      | .ok rest _qclass =>
        match be_u32 rest with
        | .ok rest ttl =>
          match be_u16 rest with
          | .ok rest data_len =>
            match take_bytes data_len rest with
            | .ok rest record_bytes =>
              match QueryType.from_num qnum with
              | .UNKNOWN _ => .ok rest (.UNKNOWN domain qnum data_len ttl)
              | .A =>
                match pIpv4 record_bytes with
                | .ok _ addr => .ok rest (.A domain addr ttl)
                | _ => .err
              | .CNAME =>
                match domain_name original fuel record_bytes with
                | .ok _ host => .ok rest (.CNAME domain host ttl)
                | .err => .err
                | .panicked => .panicked
                | .sliceOob => .sliceOob
                | .outOfFuel => .outOfFuel
              | .NS =>
                match domain_name original fuel record_bytes with
                | .ok _ host => .ok rest (.NS domain host ttl)
                | .err => .err
                | .panicked => .panicked
                | .sliceOob => .sliceOob
                | .outOfFuel => .outOfFuel
              | .MX =>
                match be_u16 record_bytes with
                | .ok rb priority =>
                  match domain_name original fuel rb with
                  | .ok _ host => .ok rest (.MX domain priority host ttl)
                  | .err => .err
                  | .panicked => .panicked
                  | .sliceOob => .sliceOob
                  | .outOfFuel => .outOfFuel
                | _ => .err
              | .AAAA =>
                match pIpv6 record_bytes with
                | .ok _ addr => .ok rest (.AAAA domain addr ttl)
                | _ => .err
            | _ => .err
          | _ => .err
        | _ => .err
      | _ => .err
    | _ => .err
  | .err => .err
  | .panicked => .panicked
  | .sliceOob => .sliceOob
  | .outOfFuel => .outOfFuel

/-- Translation of nom's `count`: run the parser exactly `n` times. -/
def countP {α : Type} (p : List Nat → PR α) : Nat → List Nat → PR (List α)
  | 0, input => .ok input []
  | n + 1, input =>
    match p input with
    | .ok rest v =>
      match countP p n rest with
      | .ok rest vs => .ok rest (v :: vs)
      | .err => .err
      | .panicked => .panicked
      | .sliceOob => .sliceOob
      | .outOfFuel => .outOfFuel
    | .err => .err
    | .panicked => .panicked
    | .sliceOob => .sliceOob
    | .outOfFuel => .outOfFuel

/-- Translation of `packet`, the crate's public packet-parsing entry point: header, then the
four record sections whose lengths come from the header counts. -/
def dns_packet_parse (fuel : Nat) (input original : List Nat) : PR DnsPacket :=
  match pHeader input with
  | .ok rest header =>
    match countP (pQuestion original fuel) header.questions rest with
    | .ok rest questions =>
      match countP (pAnswer original fuel) header.answers rest with
      | .ok rest answers =>
        match countP (pAnswer original fuel) header.authoritative_entries rest with
        | .ok rest authorities =>
          match countP (pAnswer original fuel) header.resource_entries rest with
          | .ok rest resources =>
            .ok rest ⟨header, questions, answers, authorities, resources⟩
          | .err => .err
          | .panicked => .panicked
          | .sliceOob => .sliceOob
          | .outOfFuel => .outOfFuel
        | .err => .err
        | .panicked => .panicked
        | .sliceOob => .sliceOob
        | .outOfFuel => .outOfFuel
      | .err => .err
      | .panicked => .panicked
      | .sliceOob => .sliceOob
      | .outOfFuel => .outOfFuel
    | .err => .err
    | .panicked => .panicked
    | .sliceOob => .sliceOob
    | .outOfFuel => .outOfFuel
  | _ => .err

/-- Translation of `TryFrom<&[u8]> for DnsPacket`: run the packet parser on the
whole buffer (the buffer itself is the `original` for pointer jumps) and demand
that everything is consumed.  The model folds both error strings into `.err`
and keeps the panic and fuel markers. -/
def dnsPacketTryFrom (fuel : Nat) (value : List Nat) : PR DnsPacket :=
  match dns_packet_parse fuel value value with
  | .ok [] p => .ok [] p
  | .ok _ _ => .err
  | r => r

/-! ## Wire encoder (`dnsparse/src/writer.rs`)

The Rust encoder writes into a caller-supplied mutable slice through
`BytePacketBuffer { buf, pos }`; `write` refuses positions at or past 512.
All callers in the repository pass 512-byte buffers; the index panic that a
shorter buffer would cause in Rust is not modelled (`List.set` out of range is
a no-op), and every theorem below assumes a 512-byte buffer. -/

/-- Translation of `BytePacketBuffer`. -/
structure BytePacketBuffer where
  buf : List Nat
  pos : Nat
deriving DecidableEq, Repr

namespace BytePacketBuffer

/-- Translation of `BytePacketBuffer::write`. -/
def write (b : BytePacketBuffer) (val : Nat) : Option BytePacketBuffer :=
  if 512 ≤ b.pos then none
  else some ⟨b.buf.set b.pos val, b.pos + 1⟩

/-- Translation of `BytePacketBuffer::write_u8`. -/
def write_u8 (b : BytePacketBuffer) (val : Nat) : Option BytePacketBuffer :=
  b.write val

/-- Translation of `BytePacketBuffer::write_u16`: the Rust `(val >> 8) as u8`
truncates, hence the `% 256`; `val & 0xFF` already fits a byte. -/
def write_u16 (b : BytePacketBuffer) (val : Nat) : Option BytePacketBuffer := do
  let b ← b.write ((val >>> 8) % 256)
  let b ← b.write (val &&& 0xFF)
  pure b

/-- Translation of `BytePacketBuffer::write_u32`. -/
def write_u32 (b : BytePacketBuffer) (val : Nat) : Option BytePacketBuffer := do
  let b ← b.write ((val >>> 24) &&& 0xFF)
  let b ← b.write ((val >>> 16) &&& 0xFF)
  let b ← b.write ((val >>> 8) &&& 0xFF)
  let b ← b.write (val &&& 0xFF)
  pure b

/-- Translation of `BytePacketBuffer::write_qname`: dot-split labels, each at
most 63 octets, then a terminating zero.  There is no bound on the total
encoded name length. -/
def write_qname (b : BytePacketBuffer) (qname : List Nat) : Option BytePacketBuffer := do
  let b ← (List.splitOn 46 qname).foldlM (fun b label =>
    if 0x3f < label.length then none
    else do
      let b ← b.write_u8 label.length
      label.foldlM (fun b byte => b.write_u8 byte) b) b
  b.write_u8 0

/-- Translation of `BytePacketBuffer::set` (always returns `Ok` in Rust). -/
def set (b : BytePacketBuffer) (pos val : Nat) : BytePacketBuffer :=
  ⟨b.buf.set pos val, b.pos⟩

/-- Translation of `BytePacketBuffer::set_u16`. -/
def set_u16 (b : BytePacketBuffer) (pos val : Nat) : BytePacketBuffer :=
  (b.set pos ((val >>> 8) % 256)).set (pos + 1) (val &&& 0xFF)

end BytePacketBuffer

/-- Translation of `write_header`. -/
def write_header (header : DnsHeader) (b : BytePacketBuffer) : Option BytePacketBuffer := do
  let b ← b.write_u16 header.id
  let b ← b.write_u16 header.flags
  let b ← b.write_u16 header.questions
  let b ← b.write_u16 header.answers
  let b ← b.write_u16 header.authoritative_entries
  let b ← b.write_u16 header.resource_entries
  pure b

/-- Translation of `write_question`: name, qtype, then the constant QCLASS 1. -/
def write_question (question : DnsQuestion) (b : BytePacketBuffer) :
    Option BytePacketBuffer := do
  let b ← b.write_qname question.name
  let b ← b.write_u16 question.qtype.to_num
  b.write_u16 1

/-- Translation of `write_record`.  For NS/CNAME/MX the RDLENGTH field is
reserved as zero and back-patched via `set_u16` with `size as u16` (hence the
`% 65536`); UNKNOWN records are skipped with a warning.  The Rust function
returns the number of bytes written, which no caller uses; the model returns
the buffer. -/
def write_record (record : DnsRecord) (b : BytePacketBuffer) : Option BytePacketBuffer :=
  match record with
  | .A domain addr ttl => do
    let b ← b.write_qname domain
    let b ← b.write_u16 QueryType.A.to_num
    let b ← b.write_u16 1
    let b ← b.write_u32 ttl
    let b ← b.write_u16 4
    let b ← b.write_u8 addr.o0
    let b ← b.write_u8 addr.o1
    let b ← b.write_u8 addr.o2
    let b ← b.write_u8 addr.o3
    pure b
  | .NS domain host ttl => do
    let b ← b.write_qname domain
    let b ← b.write_u16 QueryType.NS.to_num
    let b ← b.write_u16 1
    let b ← b.write_u32 ttl
    let pos := b.pos
    let b ← b.write_u16 0
    let b ← b.write_qname host
    let size := b.pos - (pos + 2)
    pure (b.set_u16 pos (size % 65536))
  | .CNAME domain host ttl => do
    let b ← b.write_qname domain
    let b ← b.write_u16 QueryType.CNAME.to_num
    let b ← b.write_u16 1
    let b ← b.write_u32 ttl
    let pos := b.pos
    let b ← b.write_u16 0
    let b ← b.write_qname host
    let size := b.pos - (pos + 2)
    pure (b.set_u16 pos (size % 65536))
  | .MX domain priority host ttl => do
    let b ← b.write_qname domain
    let b ← b.write_u16 QueryType.MX.to_num
    let b ← b.write_u16 1
    let b ← b.write_u32 ttl
    let pos := b.pos
    let b ← b.write_u16 0
    let b ← b.write_u16 priority
    let b ← b.write_qname host
    let size := b.pos - (pos + 2)
    pure (b.set_u16 pos (size % 65536))
  | .AAAA domain addr ttl => do
    let b ← b.write_qname domain
    let b ← b.write_u16 QueryType.AAAA.to_num
    let b ← b.write_u16 1
    let b ← b.write_u32 ttl
    let b ← b.write_u16 16
    let b ← b.write_u16 addr.s0
    let b ← b.write_u16 addr.s1
    let b ← b.write_u16 addr.s2
    let b ← b.write_u16 addr.s3
    let b ← b.write_u16 addr.s4
    let b ← b.write_u16 addr.s5
    let b ← b.write_u16 addr.s6
    let b ← b.write_u16 addr.s7
    pure b
  | .UNKNOWN _ _ _ _ => pure b

/-- Translation of `write` (exported as `write_packet`): header, questions,
then the three record sections; returns the buffer contents and the number of
bytes written (the written prefix of the buffer). -/
def write_packet (buf : List Nat) (packet : DnsPacket) : Option (List Nat × Nat) := do
  let b0 : BytePacketBuffer := ⟨buf, 0⟩
  let b ← write_header packet.header b0
  let b ← packet.questions.foldlM (fun b q => write_question q b) b
  let b ← packet.answers.foldlM (fun b r => write_record r b) b
  let b ← packet.authorities.foldlM (fun b r => write_record r b) b
  let b ← packet.resources.foldlM (fun b r => write_record r b) b
  pure (b.buf, b.pos)

/-! ## Pure byte-level description of the encoder output

`encPacket` describes, as a plain byte list, what `write_packet` deposits at
the front of the buffer.  The correspondence is proved below (`write_packet_emit`);
the truncations mirror the Rust casts. -/

/-- Big-endian byte pair of `write_u16`. -/
def u16be (v : Nat) : List Nat := [(v >>> 8) % 256, v &&& 0xFF]

/-- Big-endian byte quadruple of `write_u32`. -/
def u32be (v : Nat) : List Nat :=
  [(v >>> 24) &&& 0xFF, (v >>> 16) &&& 0xFF, (v >>> 8) &&& 0xFF, v &&& 0xFF]

/-- Bytes of `write_qname`: length-prefixed dot-split labels, zero terminated. -/
def encName (n : List Nat) : List Nat :=
  (List.splitOn 46 n).flatMap (fun l => l.length :: l) ++ [0]

/-- Bytes of `write_question`. -/
def encQuestion (q : DnsQuestion) : List Nat :=
  encName q.name ++ u16be q.qtype.to_num ++ u16be 1

/-- Bytes of `write_record` (after the RDLENGTH back-patch); UNKNOWN records
produce nothing. -/
def encRecord : DnsRecord → List Nat
  | .A d a ttl =>
    encName d ++ u16be 1 ++ u16be 1 ++ u32be ttl ++ u16be 4 ++ [a.o0, a.o1, a.o2, a.o3]
  | .NS d h ttl =>
    encName d ++ u16be 2 ++ u16be 1 ++ u32be ttl ++
      u16be ((encName h).length % 65536) ++ encName h
  | .CNAME d h ttl =>
    encName d ++ u16be 5 ++ u16be 1 ++ u32be ttl ++
      u16be ((encName h).length % 65536) ++ encName h
  | .MX d pr h ttl =>
    encName d ++ u16be 15 ++ u16be 1 ++ u32be ttl ++
      u16be ((2 + (encName h).length) % 65536) ++ u16be pr ++ encName h
  | .AAAA d a ttl =>
    encName d ++ u16be 28 ++ u16be 1 ++ u32be ttl ++ u16be 16 ++
      u16be a.s0 ++ u16be a.s1 ++ u16be a.s2 ++ u16be a.s3 ++
      u16be a.s4 ++ u16be a.s5 ++ u16be a.s6 ++ u16be a.s7
  | .UNKNOWN _ _ _ _ => []

/-- Bytes of `write_header`. -/
def encHeader (h : DnsHeader) : List Nat :=
  u16be h.id ++ u16be h.flags ++ u16be h.questions ++ u16be h.answers ++
    u16be h.authoritative_entries ++ u16be h.resource_entries

/-- Bytes of `write_packet`. -/
def encPacket (p : DnsPacket) : List Nat :=
  encHeader p.header ++ p.questions.flatMap encQuestion ++
    p.answers.flatMap encRecord ++ p.authorities.flatMap encRecord ++
    p.resources.flatMap encRecord

/-- Splice `e` into `buf` at position `pos`, replacing `e.length` bytes. -/
def overwrite (buf : List Nat) (pos : Nat) (e : List Nat) : List Nat :=
  buf.take pos ++ e ++ buf.drop (pos + e.length)

/-- Sequential byte writes; `write_u16`, `write_u32` and `write_qname` reduce
to this form. -/
def writeBytes (b : BytePacketBuffer) (bytes : List Nat) : Option BytePacketBuffer :=
  bytes.foldlM (fun b v => b.write v) b

/-! ## Well-formedness of in-memory packets

These predicates express that a model value is the image of a well-typed Rust
value whose strings are ASCII domain names in the sense of the spec data model:
`u8`/`u16`/`u32` fields are in range, names are nonempty dot-separated labels of
1..=63 nonzero ASCII bytes, question types survive the `to_num`/`from_num`
round trip, and no UNKNOWN records are present (the encoder drops them). -/

/-- Name well-formedness: the encoded form fits a `u16` RDLENGTH, and every
dot-separated label is nonempty, at most 63 octets, with nonzero ASCII bytes. -/
def NameWf (n : List Nat) : Prop :=
  (encName n).length < 65536 ∧
    ∀ l ∈ List.splitOn 46 n, l ≠ [] ∧ l.length ≤ 63 ∧ ∀ b ∈ l, 0 < b ∧ b < 128

instance (n : List Nat) : Decidable (NameWf n) := by
  unfold NameWf
  infer_instance

/-- Query type well-formedness: numeric round trip and `u16` range. -/
def QTypeWf (q : QueryType) : Prop :=
  QueryType.from_num q.to_num = q ∧ q.to_num < 65536

instance (q : QueryType) : Decidable (QTypeWf q) := by
  unfold QTypeWf
  infer_instance

/-- Record well-formedness; UNKNOWN records are excluded. -/
def RecordWf : DnsRecord → Prop
  | .A d a ttl =>
    NameWf d ∧ ttl < 2 ^ 32 ∧ a.o0 < 256 ∧ a.o1 < 256 ∧ a.o2 < 256 ∧ a.o3 < 256
  | .NS d h ttl => NameWf d ∧ NameWf h ∧ ttl < 2 ^ 32
  | .CNAME d h ttl => NameWf d ∧ NameWf h ∧ ttl < 2 ^ 32
  | .MX d pr h ttl => NameWf d ∧ pr < 65536 ∧ NameWf h ∧ ttl < 2 ^ 32
  | .AAAA d a ttl =>
    NameWf d ∧ ttl < 2 ^ 32 ∧ a.s0 < 65536 ∧ a.s1 < 65536 ∧ a.s2 < 65536 ∧
      a.s3 < 65536 ∧ a.s4 < 65536 ∧ a.s5 < 65536 ∧ a.s6 < 65536 ∧ a.s7 < 65536
  | .UNKNOWN _ _ _ _ => False

instance (r : DnsRecord) : Decidable (RecordWf r) := by
  cases r <;> (unfold RecordWf; infer_instance)

/-- Header numeric range well-formedness. -/
def HeaderFieldsWf (h : DnsHeader) : Prop :=
  h.id < 65536 ∧ h.opcode < 16 ∧ h.questions < 65536 ∧ h.answers < 65536 ∧
    h.authoritative_entries < 65536 ∧ h.resource_entries < 65536

instance (h : DnsHeader) : Decidable (HeaderFieldsWf h) := by
  unfold HeaderFieldsWf
  infer_instance

/-- Field well-formedness of a packet (count fields unconstrained). -/
def PacketFieldsWf (p : DnsPacket) : Prop :=
  HeaderFieldsWf p.header ∧
    (∀ q ∈ p.questions, NameWf q.name ∧ QTypeWf q.qtype) ∧
    (∀ r ∈ p.answers, RecordWf r) ∧
    (∀ r ∈ p.authorities, RecordWf r) ∧
    (∀ r ∈ p.resources, RecordWf r)

instance (p : DnsPacket) : Decidable (PacketFieldsWf p) := by
  unfold PacketFieldsWf
  infer_instance

/-- The header count fields agree with the section lengths. -/
def CountsMatch (p : DnsPacket) : Prop :=
  p.header.questions = p.questions.length ∧
    p.header.answers = p.answers.length ∧
    p.header.authoritative_entries = p.authorities.length ∧
    p.header.resource_entries = p.resources.length

instance (p : DnsPacket) : Decidable (CountsMatch p) := by
  unfold CountsMatch
  infer_instance

/-- Full well-formedness used by the round-trip theorem. -/
def PacketWf (p : DnsPacket) : Prop :=
  PacketFieldsWf p ∧ CountsMatch p

instance (p : DnsPacket) : Decidable (PacketWf p) := by
  unfold PacketWf
  infer_instance

/-- A packet whose header count field for questions is 5 although the question
section is empty; used for claim C4. -/
def countMismatchPacket : DnsPacket :=
  { header :=
      { id := 0, response := false, opcode := 0, authoritative_answer := false,
        truncated_message := false, recursion_desired := false,
        recursion_available := false, z := false, authed_data := false,
        checking_disabled := false, rescode := ResponseCode.NOERROR,
        questions := 5, answers := 0, authoritative_entries := 0,
        resource_entries := 0 },
    questions := [], answers := [], authorities := [], resources := [] }

/-- A name of four 63-octet labels: 255 name octets, 257 encoded octets. -/
def longName : List Nat :=
  List.replicate 63 97 ++ 46 :: (List.replicate 63 97 ++ 46 ::
    (List.replicate 63 97 ++ 46 :: List.replicate 63 97))

/-- The well-formed single-question query packet used as a concrete round-trip
witness ("google.com", type A, recursion desired). -/
def gqPacket : DnsPacket :=
  { header :=
      { id := 0x862a, response := false, opcode := 0, authoritative_answer := false,
        truncated_message := false, recursion_desired := true,
        recursion_available := false, z := false, authed_data := false,
        checking_disabled := false, rescode := ResponseCode.NOERROR,
        questions := 1, answers := 0, authoritative_entries := 0,
        resource_entries := 0 },
    questions := [⟨[103, 111, 111, 103, 108, 101, 46, 99, 111, 109], QueryType.A⟩],
    answers := [], authorities := [], resources := [] }

/-- A packet the encoder accepts whose decode does not return the packet minus
its UNKNOWN records: one UNKNOWN answer, count fields matching the sections. -/
def unknownRecPacket : DnsPacket :=
  { header :=
      { id := 0, response := false, opcode := 0, authoritative_answer := false,
        truncated_message := false, recursion_desired := false,
        recursion_available := false, z := false, authed_data := false,
        checking_disabled := false, rescode := ResponseCode.NOERROR,
        questions := 0, answers := 1, authoritative_entries := 0,
        resource_entries := 0 },
    questions := [], answers := [DnsRecord.UNKNOWN [] 7 0 0],
    authorities := [], resources := [] }

/-! ## The recursive engine and the server loop (`src/src/lib.rs`, `src/src/main.rs`) -/

/-- Result of the recursive engine.  `.err` is an `anyhow` error propagated by
the question-mark operator; `.outOfFuel` marks that the model's step budget
ran out before the Rust loop (which is unbounded) returned. -/
inductive RL where
  | ok (p : DnsPacket)
  | err
  | outOfFuel
deriving DecidableEq, Repr

/-- Translation of `ROOT_DNS_SERVER`. -/
def ROOT_DNS_SERVER : Ipv4Addr × Nat := (⟨198, 41, 0, 4⟩, 53)

/-- Translation of `recursive_lookup`.  The network interaction of `lookup`
(socket bind, query write, send, receive, decode) is abstracted by the oracle
`lk`: an `.error` result stands for any failure in that pipeline, which the
source propagates with the question mark.  The `fuel` argument bounds the
number of loop iterations plus nested recursions, which the source does not
bound. -/
def recursive_lookup
    (lk : List Nat → QueryType → Ipv4Addr × Nat → Except Unit DnsPacket) :
    Nat → List Nat → QueryType → Ipv4Addr × Nat → RL
  | 0, _, _, _ => .outOfFuel
  | fuel + 1, qname, qtype, ns =>
    match lk qname qtype ns with
    | .error _ => .err
    | .ok response =>
      if response.has_answers = true ∧ response.rescode = ResponseCode.NOERROR then
        .ok response
      else if response.rescode = ResponseCode.NXDOMAIN then
        .ok response
      else
        match response.get_resolved_ns qname with
        | some new_ns => recursive_lookup lk fuel qname qtype (new_ns, 53)
        | none =>
          match response.get_unresolved_ns qname with
          | none => .ok response
          | some new_ns_name =>
            match recursive_lookup lk fuel new_ns_name QueryType.A ROOT_DNS_SERVER with
            | .err => .err
            | .outOfFuel => .outOfFuel
            | .ok recursive_response =>
              match recursive_response.get_random_a with
              | some new_ns => recursive_lookup lk fuel qname qtype (new_ns, 53)
              | none => .ok response

/-- Translation of `resolve`: builds the response packet, turning a
`recursive_lookup` error into a SERVFAIL response and a missing question into
a FORMERR response (it never propagates an error itself).  `none` only when
the model's fuel ran out. -/
def resolve (lk : List Nat → QueryType → Ipv4Addr × Nat → Except Unit DnsPacket)
    (fuel : Nat) (request : DnsPacket) : Option DnsPacket :=
  match request.first_question with
  | some question =>
    match recursive_lookup lk fuel question.name question.qtype ROOT_DNS_SERVER with
    | .outOfFuel => none
    | .ok result =>
      let h : DnsHeader :=
        { id := request.header.id, response := true, opcode := 0,
          authoritative_answer := false, truncated_message := false,
          recursion_desired := true, recursion_available := true, z := false,
          authed_data := false, checking_disabled := false,
          rescode := ResponseCode.NOERROR, questions := 1,
          answers := result.answers.length % 65536,
          authoritative_entries := result.authorities.length % 65536,
          resource_entries := result.resources.length % 65536 }
      some
        { header := h, questions := [question], answers := result.answers,
          authorities := result.authorities, resources := result.resources }
    | .err =>
      let h : DnsHeader :=
        { id := request.header.id, response := true, opcode := 0,
          authoritative_answer := false, truncated_message := false,
          recursion_desired := true, recursion_available := true, z := false,
          authed_data := false, checking_disabled := false,
          rescode := ResponseCode.SERVFAIL, questions := 0, answers := 0,
          authoritative_entries := 0, resource_entries := 0 }
      some
        { header := h, questions := [], answers := [], authorities := [],
          resources := [] }
  | none =>
    let h : DnsHeader :=
      { id := request.header.id, response := true, opcode := 0,
        authoritative_answer := false, truncated_message := false,
        recursion_desired := true, recursion_available := true, z := false,
        authed_data := false, checking_disabled := false,
        rescode := ResponseCode.FORMERR, questions := 0, answers := 0,
        authoritative_entries := 0, resource_entries := 0 }
    some
      { header := h, questions := [], answers := [], authorities := [],
        resources := [] }

/-- Outcome of one iteration of the server loop.  `.exited` means an error was
propagated by a question-mark operator out of the loop body, so `main` returns
and the process terminates; `.aborted` and `.hung` are the model's markers for
a decode that panics or never returns. -/
inductive ServerEvent where
  | replied (bytes : List Nat) : ServerEvent
  | exited : ServerEvent
  | aborted : ServerEvent
  | hung : ServerEvent
deriving DecidableEq, Repr

/-- Translation of one iteration of the `loop` in `main`: decode the received
datagram (`DnsPacket::try_from(&request_buffer[..size])?`), resolve, encode
into a fresh 512-byte buffer (`write_packet(..)?`), and send the written
prefix.  Every failing step exits the loop through the question mark. -/
def handle_datagram
    (lk : List Nat → QueryType → Ipv4Addr × Nat → Except Unit DnsPacket)
    (fuel : Nat) (datagram : List Nat) : ServerEvent :=
  match dnsPacketTryFrom fuel datagram with
  | .ok _ request =>
    match resolve lk fuel request with
    | none => .hung
    | some response =>
      match write_packet (List.replicate 512 0) response with
      | some (buf, size) => .replied (buf.take size)
      | none => .exited
  | .err => .exited
  | .panicked => .aborted
  | .sliceOob => .aborted
  | .outOfFuel => .hung

/-- An authoritative NXDOMAIN response used as a concrete oracle answer. -/
def nxPacket : DnsPacket :=
  { header :=
      { id := 7, response := true, opcode := 0, authoritative_answer := true,
        truncated_message := false, recursion_desired := false,
        recursion_available := false, z := false, authed_data := false,
        checking_disabled := false, rescode := ResponseCode.NXDOMAIN,
        questions := 0, answers := 0, authoritative_entries := 0,
        resource_entries := 0 },
    questions := [], answers := [], authorities := [], resources := [] }

theorem specEndsWith_iff_isSuffixOf (q d : List Nat) :
    d.isSuffixOf q = true ↔ specEndsWith q d := by
  rw [List.isSuffixOf_iff_suffix]
  constructor
  · rintro ⟨t, rfl⟩
    refine ⟨by simp, ?_⟩
    have harith : (t ++ d).length - d.length = t.length := by simp
    rw [harith, List.drop_left]
  · rintro ⟨hlen, hdrop⟩
    refine ⟨q.take (q.length - d.length), ?_⟩
    have hsplit : q.take (q.length - d.length) ++ q.drop (q.length - d.length) = q :=
      List.take_append_drop _ q
    rw [hdrop] at hsplit
    exact hsplit

theorem specGlueFor_eq (resources : List DnsRecord) (host : List Nat) :
    specGlueFor resources host =
      resources.filterMap (fun r =>
        match r with
        | .A domain addr _ => if domain = host then some addr else none
        | _ => none) := by
  induction resources with
  | nil => rfl
  | cons r rest ih =>
    cases r with
    | A d a t =>
      by_cases h : d = host <;> simp [specGlueFor, h, ih, List.filterMap_cons]
    | NS d h t => simp [specGlueFor, ih, List.filterMap_cons]
    | CNAME d h t => simp [specGlueFor, ih, List.filterMap_cons]
    | MX d p h t => simp [specGlueFor, ih, List.filterMap_cons]
    | AAAA d a t => simp [specGlueFor, ih, List.filterMap_cons]
    | UNKNOWN d q dl t => simp [specGlueFor, ih, List.filterMap_cons]

/-- Claim C9: `get_resolved_ns(qname)` returns the first IPv4 address obtained by
iterating the authority-section NS records whose owner name is a literal
ends-with suffix of `qname` (the root owner matching every qname) and, for each
such record, selecting the additional-section A records whose owner equals the
NS target; it returns none when no such pair exists.  Stated as: the source
function coincides with the specification-side recursion `specResolvedNs`, whose
suffix test `specEndsWith` is satisfied by the empty owner for every qname. -/
theorem get_resolved_ns_spec (p : DnsPacket) (qn : List Nat) :
    p.get_resolved_ns qn = specResolvedNs p.authorities p.resources qn ∧
      specEndsWith qn [] := by
  refine ⟨?_, by constructor <;> simp⟩
  unfold DnsPacket.get_resolved_ns DnsPacket.get_ns_for DnsPacket.get_ns
  induction p.authorities with
  | nil => rfl
  | cons r rest ih =>
    cases r with
    | NS d h t =>
      by_cases hs : specEndsWith qn d
      · have hb : d.isSuffixOf qn = true := (specEndsWith_iff_isSuffixOf qn d).2 hs
        simp only [List.filterMap_cons, List.filter_cons, hb, if_pos, specResolvedNs, hs,
          List.flatMap_cons, ite_true]
        rw [← specGlueFor_eq]
        cases hg : specGlueFor p.resources h with
        | nil => simpa [hg] using ih
        | cons a rest2 => simp [hg]
      · have hb : d.isSuffixOf qn = false := by
          rcases hb2 : d.isSuffixOf qn with _ | _
          · rfl
          · exact absurd ((specEndsWith_iff_isSuffixOf qn d).1 hb2) hs
        simpa [List.filterMap_cons, List.filter_cons, hb, specResolvedNs, hs] using ih
    | A d a t => simpa [List.filterMap_cons, specResolvedNs] using ih
    | CNAME d h t => simpa [List.filterMap_cons, specResolvedNs] using ih
    | MX d pr h t => simpa [List.filterMap_cons, specResolvedNs] using ih
    | AAAA d a t => simpa [List.filterMap_cons, specResolvedNs] using ih
    | UNKNOWN d q dl t => simpa [List.filterMap_cons, specResolvedNs] using ih

theorem utf8Lossy_ascii (l : List Nat) (h : ∀ b ∈ l, b < 128) : utf8Lossy l = l := by
  induction l with
  | nil => simp [utf8Lossy]
  | cons b rest ih =>
    have hb : b < 128 := h b (List.mem_cons_self b rest)
    have hrest := ih (fun x hx => h x (List.mem_cons_of_mem b hx))
    conv_lhs => rw [utf8Lossy.eq_def]
    dsimp only
    rw [if_pos hb, hrest]

theorem domain_fragment_consumes {l rest : List Nat} {v : List Nat}
    (h : domain_fragment l = .ok rest v) : rest.length < l.length := by
  match l with
  | [] => simp [domain_fragment] at h
  | size :: tl =>
    rw [domain_fragment] at h
    by_cases hs : size ≤ tl.length
    · rw [if_pos hs] at h
      cases h
      simp
      omega
    · rw [if_neg hs] at h
      cases h

/-! ## Scanning lemmas for the name decoder -/

theorem takeWhile_all_append {p : Nat → Bool} {l r : List Nat}
    (h : ∀ b ∈ l, p b = true) : (l ++ r).takeWhile p = l ++ r.takeWhile p := by
  induction l with
  | nil => simp
  | cons a t ih =>
    have ha : p a = true := h a (List.mem_cons_self a t)
    simp only [List.cons_append, List.takeWhile_cons, ha, if_true]
    rw [ih (fun b hb => h b (List.mem_cons_of_mem a hb))]

theorem dropWhile_all_append {p : Nat → Bool} {l r : List Nat}
    (h : ∀ b ∈ l, p b = true) : (l ++ r).dropWhile p = r.dropWhile p := by
  induction l with
  | nil => simp
  | cons a t ih =>
    have ha : p a = true := h a (List.mem_cons_self a t)
    simp only [List.cons_append, List.dropWhile_cons, ha, if_true]
    exact ih (fun b hb => h b (List.mem_cons_of_mem a hb))

theorem dropWhile_ne_head {v x : Nat} {l xs : List Nat}
    (h : l.dropWhile (fun c => c ≠ v) = x :: xs) : x = v := by
  induction l with
  | nil => simp at h
  | cons a t ih =>
    rw [List.dropWhile_cons] at h
    by_cases hav : a = v
    · rw [if_neg (by simp [hav])] at h
      cases h
      exact hav
    · rw [if_pos (by simp [hav])] at h
      exact ih h

theorem many0FragmentsF_fuel :
    ∀ (fuel : Nat) (l : List Nat), l.length ≤ fuel →
      many0FragmentsF fuel l = many0FragmentsF l.length l := by
  intro fuel
  induction fuel using Nat.strong_induction_on with
  | _ fuel ih =>
    intro l h
    match fuel, l with
    | 0, l =>
      have hl : l = [] := List.length_eq_zero.mp (Nat.le_zero.mp h)
      subst hl
      rfl
    | n + 1, [] => rfl
    | n + 1, x :: t =>
      simp only [List.length_cons]
      have hn : t.length ≤ n := by simpa using h
      cases hd : domain_fragment (x :: t) with
      | ok rest frag =>
        have hlt : rest.length < t.length + 1 := domain_fragment_consumes hd
        have h1 : many0FragmentsF n rest = many0FragmentsF rest.length rest :=
          ih n (Nat.lt_succ_self n) rest (by omega)
        have h2 : many0FragmentsF t.length rest = many0FragmentsF rest.length rest :=
          ih t.length (by omega) rest (by omega)
        simp only [many0FragmentsF, hd, h1, h2]
      | err => simp only [many0FragmentsF, hd]
      | panicked => simp only [many0FragmentsF, hd]
      | sliceOob => simp only [many0FragmentsF, hd]
      | outOfFuel => simp only [many0FragmentsF, hd]

theorem many0Fragments_step {l rest frag : List Nat}
    (h : domain_fragment l = .ok rest frag) :
    many0Fragments l = ((many0Fragments rest).1, frag :: (many0Fragments rest).2) := by
  match l with
  | [] => simp [domain_fragment] at h
  | x :: t =>
    have hlt : rest.length < t.length + 1 := domain_fragment_consumes h
    unfold many0Fragments
    simp only [List.length_cons, many0FragmentsF, h]
    rw [many0FragmentsF_fuel t.length rest (by omega)]

theorem many0Fragments_err {l : List Nat}
    (h : domain_fragment l = .err) : many0Fragments l = (l, []) := by
  match l with
  | [] => rfl
  | x :: t =>
    unfold many0Fragments
    simp only [List.length_cons, many0FragmentsF, h]

theorem many0Fragments_nil : many0Fragments [] = ([], []) :=
  many0Fragments_err rfl

theorem isperse_single (s : List Nat) : isperse [s] = s := rfl

/-- Single exact fragment: a length byte equal to the label length followed by
the label parses as one fragment consuming everything. -/
theorem many0Fragments_exact (label : List Nat) :
    many0Fragments (label.length :: label) = ([], [utf8Lossy label]) := by
  have hdf : domain_fragment (label.length :: label) = .ok [] (utf8Lossy label) := by
    rw [domain_fragment]
    rw [if_pos (le_refl _)]
    rw [List.take_length, List.drop_length]
  rw [many0Fragments_step hdf, many0Fragments_nil]

/-- The scan of an input that starts with the jump byte selects the `0xc0`
split: the whole input is the rest and the scanned prefix is empty. -/
theorem nameScan_cons_jump (l : List Nat) :
    nameScan (0xc0 :: l) = (0xc0 :: l, []) := by
  unfold nameScan
  simp [NULL_BYTE, JUMP_REQUIRED_FLAG, List.takeWhile_cons, List.dropWhile_cons]

/-- The scan of a prefix free of `0x00` and `0xc0` followed by a `0x00` byte
selects the `0x00` split at exactly that byte. -/
theorem nameScan_inline (pre post : List Nat)
    (h0 : ∀ b ∈ pre, b ≠ 0x00) (hc : ∀ b ∈ pre, b ≠ 0xc0) :
    nameScan (pre ++ 0x00 :: post) = (0x00 :: post, pre) := by
  unfold nameScan
  have hp0 : ∀ b ∈ pre, (fun c => decide (c ≠ NULL_BYTE)) b = true := by
    intro b hb
    simpa [NULL_BYTE] using h0 b hb
  have hpc : ∀ b ∈ pre, (fun c => decide (c ≠ JUMP_REQUIRED_FLAG)) b = true := by
    intro b hb
    simpa [JUMP_REQUIRED_FLAG] using hc b hb
  rw [takeWhile_all_append hp0, dropWhile_all_append hp0, takeWhile_all_append hpc]
  simp [NULL_BYTE, JUMP_REQUIRED_FLAG, List.takeWhile_cons, List.dropWhile_cons]

/-- The rest component of the scan starts with `0x00` or `0xc0` whenever it is
nonempty: the scan stops only at those byte values. -/
theorem nameScan_head {input xs pre : List Nat} {x : Nat}
    (h : nameScan input = (x :: xs, pre)) : x = 0x00 ∨ x = 0xc0 := by
  unfold nameScan at h
  by_cases hcond : (input.takeWhile (fun c => c ≠ NULL_BYTE)).length ≤
      (input.takeWhile (fun c => c ≠ JUMP_REQUIRED_FLAG)).length
  · rw [if_pos hcond] at h
    have hfst : input.dropWhile (fun c => c ≠ NULL_BYTE) = x :: xs :=
      congrArg Prod.fst h
    exact Or.inl (dropWhile_ne_head hfst)
  · rw [if_neg hcond] at h
    have hfst : input.dropWhile (fun c => c ≠ JUMP_REQUIRED_FLAG) = x :: xs :=
      congrArg Prod.fst h
    exact Or.inr (dropWhile_ne_head hfst)

/-- Claim C2 (failing input): a packet whose name starts with a compression
pointer at offset 0 targeting offset 0 makes `domain_name` recurse on exactly
the same input for ever: for every fuel bound the model runs out of fuel, and
in particular no `FORMAT_ERROR` (parse error) is ever produced.  The Rust code
has no hop counter and no visited set, so on the wire bytes `c0 00` it
recurses without bound until the stack overflows. -/
theorem domain_name_pointer_loop_diverges :
    ∀ fuel : Nat, domain_name [0xc0, 0x00] fuel [0xc0, 0x00] = .outOfFuel := by
  intro fuel
  induction fuel with
  | zero => rfl
  | succ n ih =>
    simp only [domain_name, nameScan_cons_jump]
    simp only [NULL_BYTE, JUMP_REQUIRED_FLAG]
    norm_num
    rw [ih]

/-- Claim C3 (amended): the decoder treats a name whose next octet is exactly
`0xc0` as a compression pointer; the target offset is the single following
octet (for a first octet equal to `0xc0` this agrees with the 14-bit formula,
since its low six bits are zero); decoding continues from that absolute offset
of the original message and the cursor returned to the caller stops two bytes
past the pointer start. -/
theorem domain_name_pointer (original : List Nat) (fuel j : Nat) (rest : List Nat)
    (hj : j ≤ original.length) :
    domain_name original (fuel + 1) (0xc0 :: j :: rest) =
      match domain_name original fuel (original.drop j) with
      | .ok _ s => .ok rest s
      | r => r := by
  simp only [domain_name, nameScan_cons_jump]
  simp only [NULL_BYTE, JUMP_REQUIRED_FLAG]
  norm_num
  rw [if_pos hj]
  cases hrec : domain_name original fuel (original.drop j) <;>
    simp [isperse, many0Fragments_nil]

/-- Witness for C3: a two-byte pointer `c0 00` decoded against the message
`01 41 00` (one label of one byte, the letter A) jumps to offset 0, expands the
label there, and leaves the two trailing bytes unconsumed. -/
theorem domain_name_pointer_witness :
    (0 ≤ ([1, 0x41, 0] : List Nat).length) ∧
      domain_name [1, 0x41, 0] 2 [0xc0, 0, 9, 9] = .ok [9, 9] [0x41] := by
  refine ⟨by decide, ?_⟩
  have h := domain_name_pointer [1, 0x41, 0] 1 0 [9, 9] (by decide)
  rw [h]
  decide

/-- Counterexample to C3 as frozen: the wire name `c1 02 61 00` begins with an
octet whose high two bits are `11` (`0xc1 &&& 0xc0 = 0xc0`), so per the claim
it should be decoded as a pointer with 14-bit target `(0xc1 &&& 0x3f) * 256 + 2
= 258` — impossible inside this 4-byte message.  The code instead scans to the
first `0x00`, feeds `c1 02 61` to the fragment parser (which fails and is
silently discarded), and succeeds with the empty name, consuming all 4 bytes. -/
theorem domain_name_pointer_counterexample :
    domain_name [0xc1, 0x02, 0x61, 0x00] 1 [0xc1, 0x02, 0x61, 0x00] = .ok [] [] ∧
      0xc1 &&& 0xc0 = 0xc0 ∧ (0xc1 &&& 0x3f) * 256 + 2 = 258 ∧
      ([0xc1, 0x02, 0x61, 0x00] : List Nat).length < 258 := by
  refine ⟨?_, by decide, by decide, by decide⟩
  decide

/-- Claim C6 (amended): the decoder imposes no 63-octet bound and reserves no
bit patterns: any next octet other than `0x00` and `0xc0` — in particular one
with high bits `01` or `10`, or an inline length above 63 — is treated as an
ordinary label length.  When the announced label fits before the next `0x00` or
`0xc0` byte it is decoded as a label rather than rejected with `FORMAT_ERROR`. -/
theorem domain_name_inline_no_bound (original : List Nat) (fuel : Nat)
    (label rest : List Nat) (hne : label ≠ [])
    (hlen : label.length ≠ 0xc0)
    (hbytes : ∀ b ∈ label, b ≠ 0x00 ∧ b ≠ 0xc0) :
    domain_name original (fuel + 1) (label.length :: (label ++ 0x00 :: rest)) =
      .ok rest (utf8Lossy label) := by
  have h0 : ∀ b ∈ label.length :: label, b ≠ 0x00 := by
    intro b hb
    rcases List.mem_cons.mp hb with h1 | h2
    · subst h1
      exact fun hzero => hne (List.length_eq_zero.mp hzero)
    · exact (hbytes b h2).1
  have hc : ∀ b ∈ label.length :: label, b ≠ 0xc0 := by
    intro b hb
    rcases List.mem_cons.mp hb with h1 | h2
    · subst h1
      exact hlen
    · exact (hbytes b h2).2
  have hscan := nameScan_inline (label.length :: label) rest h0 hc
  simp only [domain_name]
  rw [show label.length :: (label ++ 0x00 :: rest) =
      (label.length :: label) ++ 0x00 :: rest from rfl]
  rw [hscan, many0Fragments_exact]
  simp only [NULL_BYTE, JUMP_REQUIRED_FLAG]
  norm_num [isperse_single]

/-- Witness for C6: the length octet 65 = `0x41` (high bits `01`, above 63) is
accepted: a 65-byte label of letters decodes successfully. -/
theorem domain_name_inline_no_bound_witness :
    (List.replicate 65 0x61 ≠ ([] : List Nat)) ∧ 63 < (List.replicate 65 0x61).length ∧
      domain_name [] 1 ((List.replicate 65 0x61).length ::
          (List.replicate 65 0x61 ++ [0x00])) = .ok [] (List.replicate 65 0x61) := by
  refine ⟨by decide, by decide, ?_⟩
  have h := domain_name_inline_no_bound [] 0 (List.replicate 65 0x61) []
    (by decide) (by decide) (by decide)
  rw [h]
  decide

set_option maxRecDepth 4096 in
/-- Counterexample to C6 as frozen: a wire name whose length octet is `0x81`
(high bits `10`, value 129 above 63) is not rejected: the decoder returns the
129-byte label successfully instead of failing with `FORMAT_ERROR`. -/
theorem domain_name_inline_counterexample :
    domain_name (0x81 :: (List.replicate 129 0x61 ++ [0x00])) 1
        (0x81 :: (List.replicate 129 0x61 ++ [0x00])) =
      .ok [] (List.replicate 129 0x61) := by
  decide

/-- Claim C10 (amended): the explicit `panic!` branch of `domain_name` is
unreachable — the byte examined after the scanned prefix is always `0x00` or
`0xc0`, because the scan stops only at those values.  (The function can still
fail to return normally: a pointer target past the end of the packet panics the
slice operation, `PR.sliceOob`, and a pointer loop never terminates,
`PR.outOfFuel` for every fuel.) -/
theorem domain_name_never_panics (original : List Nat) :
    ∀ (fuel : Nat) (input : List Nat), domain_name original fuel input ≠ .panicked := by
  intro fuel
  induction fuel with
  | zero => intro input; simp [domain_name]
  | succ n ih =>
    intro input
    simp only [domain_name]
    rcases hscan : nameScan input with ⟨d, t⟩
    cases d with
    | nil => simp
    | cons next rest =>
      rcases nameScan_head hscan with hx | hx <;> subst hx <;>
        simp only [NULL_BYTE, JUMP_REQUIRED_FLAG]
      · simp
      · norm_num
        cases rest with
        | nil => simp
        | cons j rest2 =>
          dsimp only
          by_cases hj : j ≤ original.length
          · rw [if_pos hj]
            cases hr : domain_name original n (original.drop j) with
            | ok r s => simp
            | err => simp
            | panicked => exact absurd hr (ih (original.drop j))
            | sliceOob => simp
            | outOfFuel => simp
          · rw [if_neg hj]
            simp

/-- Counterexample to C10 as frozen: the decoder does not always return a name
or a parse error.  On the two-byte message `c0 05` the pointer target 5 exceeds
the message length 2, and the Rust slice `&original[5..]` panics (modelled as
`PR.sliceOob`), aborting the process even though the explicit `panic!` branch
was not taken.  (A pointer loop, claim C2, is a second way it fails to return.) -/
theorem domain_name_abort_counterexample :
    domain_name [0xc0, 0x05] 1 [0xc0, 0x05] = .sliceOob := by
  decide

/-! ### Splice algebra for the write buffer -/

theorem overwrite_getElem? (buf e : List Nat) (p : Nat)
    (hp : p + e.length ≤ buf.length) (i : Nat) :
    (overwrite buf p e)[i]? =
      if i < p then buf[i]? else if i < p + e.length then e[i - p]? else buf[i]? := by
  unfold overwrite
  rw [List.append_assoc]
  have hpl : (buf.take p).length = p := by rw [List.length_take]; omega
  rw [List.getElem?_append, hpl]
  by_cases h1 : i < p
  · rw [if_pos h1, if_pos h1, List.getElem?_take, if_pos h1]
  · rw [if_neg h1, if_neg h1]
    rw [List.getElem?_append]
    by_cases h2 : i < p + e.length
    · rw [if_pos (by omega), if_pos (by omega)]
    · rw [if_neg (by omega), if_neg (by omega)]
      rw [List.getElem?_drop]
      congr 1
      omega

theorem overwrite_length (buf e : List Nat) (p : Nat)
    (h : p + e.length ≤ buf.length) : (overwrite buf p e).length = buf.length := by
  unfold overwrite
  simp only [List.length_append, List.length_take, List.length_drop]
  omega

theorem overwrite_append (buf e1 e2 : List Nat) (p : Nat)
    (h : p + e1.length + e2.length ≤ buf.length) :
    overwrite (overwrite buf p e1) (p + e1.length) e2 = overwrite buf p (e1 ++ e2) := by
  apply List.ext_getElem?
  intro i
  have hlen1 : (overwrite buf p e1).length = buf.length :=
    overwrite_length _ _ _ (by omega)
  rw [overwrite_getElem? (overwrite buf p e1) e2 (p + e1.length) (by omega) i]
  rw [overwrite_getElem? buf (e1 ++ e2) p (by simp only [List.length_append]; omega) i]
  rw [overwrite_getElem? buf e1 p (by omega) i]
  simp only [List.length_append]
  split_ifs <;> first
    | rfl
    | omega
    | (rw [List.getElem?_append]
       split_ifs <;> first
         | rfl
         | omega
         | (congr 1; omega))

theorem overwrite_set (buf e : List Nat) (p k v : Nat) (hk : k < e.length)
    (hp : p + e.length ≤ buf.length) :
    (overwrite buf p e).set (p + k) v = overwrite buf p (e.set k v) := by
  apply List.ext_getElem?
  intro i
  rw [List.getElem?_set]
  rw [overwrite_getElem? buf e p hp i]
  rw [overwrite_getElem? buf (e.set k v) p (by rw [List.length_set]; omega) i]
  rw [overwrite_length buf e p hp]
  simp only [List.length_set, List.getElem?_set]
  split_ifs <;> first
    | rfl
    | omega
    | (congr 1; omega)

theorem overwrite_take (buf e : List Nat) (p : Nat) (h : p + e.length ≤ buf.length) :
    (overwrite buf 0 e).take e.length = e := by
  unfold overwrite
  simp only [List.take_nil, List.take_zero, List.nil_append, Nat.zero_add]
  rw [show e ++ buf.drop e.length = e ++ buf.drop e.length from rfl]
  exact List.take_left e _

theorem set_eq_overwrite (buf : List Nat) (pos v : Nat) (h : pos < buf.length) :
    buf.set pos v = overwrite buf pos [v] := by
  rw [List.set_eq_take_append_cons_drop, if_pos h]
  unfold overwrite
  simp

theorem writeBytes_nil (b : BytePacketBuffer) : writeBytes b [] = some b := rfl

theorem writeBytes_emit :
    ∀ (bytes : List Nat) (b : BytePacketBuffer), b.buf.length = 512 →
      b.pos + bytes.length ≤ 512 →
      writeBytes b bytes =
        some ⟨overwrite b.buf b.pos bytes, b.pos + bytes.length⟩ := by
  intro bytes
  induction bytes with
  | nil =>
    intro b h1 h2
    rw [writeBytes_nil]
    unfold overwrite
    simp [List.take_append_drop]
  | cons v rest ih =>
    intro b h1 h2
    have hpos : b.pos < 512 := by
      have := h2
      simp only [List.length_cons] at this
      omega
    have hw : b.write v = some ⟨b.buf.set b.pos v, b.pos + 1⟩ := by
      unfold BytePacketBuffer.write
      rw [if_neg (by omega)]
    unfold writeBytes
    rw [List.foldlM_cons]
    show (b.write v) >>= (fun b' => List.foldlM (fun b v => b.write v) b' rest) = _
    rw [hw]
    simp only [Option.bind_eq_bind, Option.some_bind]
    have hlen' : (b.buf.set b.pos v).length = 512 := by
      rw [List.length_set]; exact h1
    have hrest := ih ⟨b.buf.set b.pos v, b.pos + 1⟩ hlen'
      (by simp only [List.length_cons] at h2; simpa using by omega)
    rw [show List.foldlM (fun b v => b.write v) ⟨b.buf.set b.pos v, b.pos + 1⟩ rest =
        writeBytes ⟨b.buf.set b.pos v, b.pos + 1⟩ rest from rfl]
    rw [hrest]
    have hset : b.buf.set b.pos v = overwrite b.buf b.pos [v] :=
      set_eq_overwrite _ _ _ (by omega)
    have happ : overwrite (overwrite b.buf b.pos [v]) (b.pos + 1) rest =
        overwrite b.buf b.pos ([v] ++ rest) := by
      have := overwrite_append b.buf [v] rest b.pos
        (by simp only [List.length_cons] at h2; simp; omega)
      simpa using this
    simp only [hset, happ]
    simp only [List.singleton_append, List.length_cons]
    congr 2
    omega

theorem writeBytes_fail :
    ∀ (bytes : List Nat) (b : BytePacketBuffer), bytes ≠ [] →
      512 < b.pos + bytes.length → writeBytes b bytes = none := by
  intro bytes
  induction bytes with
  | nil => intro b h1 _; exact absurd rfl h1
  | cons v rest ih =>
    intro b _ h2
    unfold writeBytes
    rw [List.foldlM_cons]
    show (b.write v) >>= (fun b' => List.foldlM (fun b v => b.write v) b' rest) = _
    by_cases hpos : 512 ≤ b.pos
    · have hw : b.write v = none := by
        unfold BytePacketBuffer.write
        rw [if_pos hpos]
      rw [hw]
      rfl
    · have hw : b.write v = some ⟨b.buf.set b.pos v, b.pos + 1⟩ := by
        unfold BytePacketBuffer.write
        rw [if_neg hpos]
      rw [hw]
      simp only [Option.bind_eq_bind, Option.some_bind]
      have hne : rest ≠ [] := by
        intro hr
        subst hr
        simp only [List.length_cons, List.length_nil] at h2
        omega
      exact ih ⟨b.buf.set b.pos v, b.pos + 1⟩ hne
        (by simp only [List.length_cons] at h2 ⊢; omega)

theorem writeBytes_append (b : BytePacketBuffer) (e1 e2 : List Nat) :
    writeBytes b (e1 ++ e2) =
      (writeBytes b e1) >>= fun b' => writeBytes b' e2 := by
  unfold writeBytes
  rw [List.foldlM_append]

theorem write_u8_eq (b : BytePacketBuffer) (v : Nat) :
    b.write_u8 v = writeBytes b [v] := by
  unfold BytePacketBuffer.write_u8 writeBytes
  cases h : b.write v <;> simp [List.foldlM_cons, h]

theorem write_u16_eq (b : BytePacketBuffer) (v : Nat) :
    b.write_u16 v = writeBytes b (u16be v) := by
  unfold BytePacketBuffer.write_u16 u16be writeBytes
  cases h1 : b.write ((v >>> 8) % 256) with
  | none => simp [List.foldlM_cons, h1]
  | some b1 =>
    cases h2 : b1.write (v &&& 0xFF) <;>
      simp [List.foldlM_cons, h1, h2]

theorem write_u32_eq (b : BytePacketBuffer) (v : Nat) :
    b.write_u32 v = writeBytes b (u32be v) := by
  unfold BytePacketBuffer.write_u32 u32be writeBytes
  cases h1 : b.write ((v >>> 24) &&& 0xFF) with
  | none => simp [List.foldlM_cons, h1]
  | some b1 =>
    cases h2 : b1.write ((v >>> 16) &&& 0xFF) with
    | none => simp [List.foldlM_cons, h1, h2]
    | some b2 =>
      cases h3 : b2.write ((v >>> 8) &&& 0xFF) with
      | none => simp [List.foldlM_cons, h1, h2, h3]
      | some b3 =>
        cases h4 : b3.write (v &&& 0xFF) <;>
          simp [List.foldlM_cons, h1, h2, h3, h4]

theorem labelsFold_eq :
    ∀ (labels : List (List Nat)) (b : BytePacketBuffer),
      (∀ l ∈ labels, l.length ≤ 63) →
      labels.foldlM (fun b label =>
        if 0x3f < label.length then none
        else do
          let b ← b.write_u8 label.length
          label.foldlM (fun b byte => b.write_u8 byte) b) b =
        writeBytes b (labels.flatMap fun l => l.length :: l) := by
  intro labels
  induction labels with
  | nil => intro b _; rfl
  | cons l rest ih =>
    intro b hwf
    rw [List.foldlM_cons, List.flatMap_cons, writeBytes_append]
    have hl : ¬ (0x3f < l.length) := by
      have := hwf l (List.mem_cons_self _ _)
      omega
    rw [if_neg hl]
    have hstep : (do
        let b1 ← b.write_u8 l.length
        l.foldlM (fun b byte => b.write_u8 byte) b1) = writeBytes b (l.length :: l) := by
      unfold writeBytes
      rw [List.foldlM_cons]
      rfl
    rw [hstep]
    cases hb : writeBytes b (l.length :: l) with
    | none => rfl
    | some b1 =>
      simp only [Option.bind_eq_bind, Option.some_bind]
      exact ih b1 (fun x hx => hwf x (List.mem_cons_of_mem _ hx))

theorem write_qname_eq (qname : List Nat) (b : BytePacketBuffer)
    (hwf : ∀ l ∈ List.splitOn 46 qname, l.length ≤ 63) :
    b.write_qname qname = writeBytes b (encName qname) := by
  unfold BytePacketBuffer.write_qname encName
  rw [labelsFold_eq _ _ hwf, writeBytes_append]
  cases hb : writeBytes b ((List.splitOn 46 qname).flatMap fun l => l.length :: l) with
  | none => rfl
  | some b1 => simp [write_u8_eq]

theorem labelsFold_fail :
    ∀ (labels : List (List Nat)) (b : BytePacketBuffer),
      (∃ l ∈ labels, 63 < l.length) →
      labels.foldlM (fun b label =>
        if 0x3f < label.length then none
        else do
          let b ← b.write_u8 label.length
          label.foldlM (fun b byte => b.write_u8 byte) b) b = none := by
  intro labels
  induction labels with
  | nil => intro b h; simp at h
  | cons a t ih =>
    intro b hex
    rw [List.foldlM_cons]
    rcases hex with ⟨l, hl, hlen⟩
    rcases List.mem_cons.mp hl with h1 | h2
    · subst h1
      rw [if_pos (by omega)]
      rfl
    · by_cases ha : 0x3f < a.length
      · rw [if_pos ha]
        rfl
      · rw [if_neg ha]
        cases h1 : b.write_u8 a.length with
        | none => simp [h1]
        | some b1 =>
          cases h2f : a.foldlM (fun b byte => b.write_u8 byte) b1 with
          | none => simp [h1, h2f]
          | some b2 =>
            simp only [h1, h2f, Option.bind_eq_bind, Option.some_bind]
            exact ih b2 ⟨l, h2, hlen⟩

theorem write_qname_fail_label (qname : List Nat) (b : BytePacketBuffer)
    (hex : ∃ l ∈ List.splitOn 46 qname, 63 < l.length) :
    b.write_qname qname = none := by
  unfold BytePacketBuffer.write_qname
  rw [labelsFold_fail _ _ hex]
  rfl

theorem encName_ne_nil (qname : List Nat) : encName qname ≠ [] := by
  unfold encName
  simp

/-- Claim C7 (amended): from a fresh 512-byte buffer, `write_qname` fails
exactly when some dot-separated label exceeds 63 octets or the encoded name
(length bytes plus terminator) exceeds the 512-octet buffer.  In particular no
255-octet total-name bound is enforced: names whose encoded form is between
256 and 512 octets are accepted. -/
theorem write_qname_none_iff (qname : List Nat) :
    BytePacketBuffer.write_qname ⟨List.replicate 512 0, 0⟩ qname = none ↔
      ((∃ l ∈ List.splitOn 46 qname, 63 < l.length) ∨
        512 < (encName qname).length) := by
  constructor
  · intro hnone
    by_cases hex : ∃ l ∈ List.splitOn 46 qname, 63 < l.length
    · exact Or.inl hex
    · refine Or.inr ?_
      have hwf : ∀ l ∈ List.splitOn 46 qname, l.length ≤ 63 := by
        intro l hl
        by_contra hc
        exact hex ⟨l, hl, by omega⟩
      rw [write_qname_eq _ _ hwf] at hnone
      by_contra hsp
      rw [writeBytes_emit _ _ (by simp only [List.length_replicate])
        (by simp only [Nat.zero_add]; omega)] at hnone
      cases hnone
  · intro h
    rcases h with hex | hsp
    · exact write_qname_fail_label _ _ hex
    · by_cases hex : ∃ l ∈ List.splitOn 46 qname, 63 < l.length
      · exact write_qname_fail_label _ _ hex
      · have hwf : ∀ l ∈ List.splitOn 46 qname, l.length ≤ 63 := by
          intro l hl
          by_contra hc
          exact hex ⟨l, hl, by omega⟩
        rw [write_qname_eq _ _ hwf]
        exact writeBytes_fail _ _ (encName_ne_nil qname) (by simpa using hsp)

theorem u16be_length (v : Nat) : (u16be v).length = 2 := rfl

theorem u32be_length (v : Nat) : (u32be v).length = 4 := rfl

theorem write_header_eq (h : DnsHeader) (b : BytePacketBuffer) :
    write_header h b = writeBytes b (encHeader h) := by
  unfold write_header encHeader
  simp only [write_u16_eq, writeBytes_append, Option.bind_eq_bind, Option.bind_assoc]
  simp [Option.bind_some]

theorem NameWf.labels {n : List Nat} (h : NameWf n) :
    ∀ l ∈ List.splitOn 46 n, l.length ≤ 63 :=
  fun l hl => ((h.2 l hl).2).1

theorem set_middle2 (A B : List Nat) (x y v w : Nat) :
    ((A ++ x :: y :: B).set A.length v).set (A.length + 1) w = A ++ v :: w :: B := by
  induction A with
  | nil => simp [List.set]
  | cons a t ih => simp [List.set, ih]

theorem writeBytes_cons (b : BytePacketBuffer) (v : Nat) (rest : List Nat) :
    writeBytes b (v :: rest) = (b.write v) >>= fun b2 => writeBytes b2 rest := by
  unfold writeBytes
  rw [List.foldlM_cons]

theorem write_question_eq (q : DnsQuestion) (b : BytePacketBuffer)
    (hwf : ∀ l ∈ List.splitOn 46 q.name, l.length ≤ 63) :
    write_question q b = writeBytes b (encQuestion q) := by
  unfold write_question encQuestion
  simp only [write_qname_eq _ _ hwf, write_u16_eq, writeBytes_append,
    Option.bind_eq_bind, Option.bind_assoc, Option.pure_def, Option.bind_some]

theorem backpatch_emit (b : BytePacketBuffer) (E1 E2 : List Nat)
    (hlen : b.buf.length = 512) (h2 : 2 ≤ E2.length)
    (hsp : b.pos + E1.length + E2.length ≤ 512)
    (hE2 : E2.take 2 = [0, 0]) :
    ((writeBytes b E1) >>= fun b4 => (writeBytes b4 E2) >>= fun b6 =>
      pure (b6.set_u16 b4.pos ((b6.pos - (b4.pos + 2)) % 65536))) =
    some ⟨overwrite b.buf b.pos
        (E1 ++ u16be ((E2.length - 2) % 65536) ++ E2.drop 2),
      b.pos + E1.length + E2.length⟩ := by
  rw [writeBytes_emit _ _ hlen (by omega)]
  simp only [Option.bind_eq_bind, Option.some_bind]
  have hlen2 : (⟨overwrite b.buf b.pos E1, b.pos + E1.length⟩ :
      BytePacketBuffer).buf.length = 512 := by
    show (overwrite b.buf b.pos E1).length = 512
    rw [overwrite_length _ _ _ (by omega)]
    exact hlen
  have hsp2 : (⟨overwrite b.buf b.pos E1, b.pos + E1.length⟩ :
      BytePacketBuffer).pos + E2.length ≤ 512 := by
    show b.pos + E1.length + E2.length ≤ 512
    omega
  rw [writeBytes_emit _ _ hlen2 hsp2]
  simp only [Option.some_bind, Option.pure_def]
  have hsize : b.pos + E1.length + E2.length - (b.pos + E1.length + 2) =
      E2.length - 2 := by
    omega
  show some ((⟨overwrite (overwrite b.buf b.pos E1) (b.pos + E1.length) E2,
      b.pos + E1.length + E2.length⟩ : BytePacketBuffer).set_u16
      (b.pos + E1.length)
      ((b.pos + E1.length + E2.length - (b.pos + E1.length + 2)) % 65536)) = _
  rw [hsize]
  simp only [BytePacketBuffer.set_u16, BytePacketBuffer.set]
  rw [overwrite_append _ _ _ _ (by omega)]
  rw [overwrite_set _ _ _ _ _ (by simp only [List.length_append]; omega)
    (by simp only [List.length_append]; omega)]
  rw [Nat.add_assoc b.pos E1.length 1]
  rw [overwrite_set _ _ _ _ _
    (by simp only [List.length_set, List.length_append]; omega)
    (by simp only [List.length_set, List.length_append]; omega)]
  have hE2split : E2 = 0 :: 0 :: E2.drop 2 := by
    conv_lhs => rw [← List.take_append_drop 2 E2, hE2]
    rfl
  rw [show E1 ++ E2 = E1 ++ 0 :: 0 :: E2.drop 2 from by rw [← hE2split]]
  rw [set_middle2]
  refine congrArg some ?_
  refine congrArg₂ BytePacketBuffer.mk ?_ rfl
  refine congrArg (overwrite b.buf b.pos) ?_
  rw [u16be]
  simp [List.append_assoc]

theorem write_record_emit (r : DnsRecord) (b : BytePacketBuffer) (hwf : RecordWf r)
    (hlen : b.buf.length = 512) (hsp : b.pos + (encRecord r).length ≤ 512) :
    write_record r b =
      some ⟨overwrite b.buf b.pos (encRecord r), b.pos + (encRecord r).length⟩ := by
  cases r with
  | A d a ttl =>
    have heq : write_record (.A d a ttl) b = writeBytes b (encRecord (.A d a ttl)) := by
      simp only [write_record]
      unfold encRecord
      simp only [write_qname_eq _ _ hwf.1.labels, write_u16_eq, write_u32_eq,
        BytePacketBuffer.write_u8, writeBytes_append, writeBytes_cons, writeBytes_nil,
        Option.bind_eq_bind, Option.bind_assoc, Option.pure_def, Option.bind_some,
        QueryType.to_num]
    rw [heq, writeBytes_emit _ _ hlen hsp]
  | AAAA d a ttl =>
    have heq : write_record (.AAAA d a ttl) b =
        writeBytes b (encRecord (.AAAA d a ttl)) := by
      simp only [write_record]
      unfold encRecord
      simp only [write_qname_eq _ _ hwf.1.labels, write_u16_eq, write_u32_eq,
        BytePacketBuffer.write_u8, writeBytes_append, writeBytes_cons, writeBytes_nil,
        Option.bind_eq_bind, Option.bind_assoc, Option.pure_def, Option.bind_some,
        QueryType.to_num]
    rw [heq, writeBytes_emit _ _ hlen hsp]
  | UNKNOWN d q dl ttl => exact hwf.elim
  | NS d h ttl =>
    obtain ⟨hd, hh, _⟩ := hwf
    have heq : write_record (.NS d h ttl) b =
        (writeBytes b (encName d ++ u16be QueryType.NS.to_num ++ u16be 1 ++ u32be ttl)) >>=
          fun b4 => (writeBytes b4 (u16be 0 ++ encName h)) >>= fun b6 =>
            pure (b6.set_u16 b4.pos ((b6.pos - (b4.pos + 2)) % 65536)) := by
      simp only [write_record]
      simp only [write_qname_eq _ _ hd.labels, write_qname_eq _ _ hh.labels,
        write_u16_eq, write_u32_eq, writeBytes_append,
        Option.bind_eq_bind, Option.bind_assoc, Option.pure_def, Option.bind_some]
    have hsp2 : b.pos +
        (encName d ++ u16be QueryType.NS.to_num ++ u16be 1 ++ u32be ttl).length +
        (u16be 0 ++ encName h).length ≤ 512 := by
      simp only [List.length_append, u16be_length, u32be_length]
      simp only [encRecord, List.length_append, u16be_length, u32be_length] at hsp
      omega
    rw [heq, backpatch_emit _ _ _ hlen
      (by simp only [List.length_append, u16be_length]; omega) hsp2 rfl]
    refine congrArg some ?_
    refine congrArg₂ BytePacketBuffer.mk ?_ ?_
    · refine congrArg (overwrite b.buf b.pos) ?_
      have hdrop : (u16be 0 ++ encName h).drop 2 = encName h := rfl
      have hsub : (u16be 0 ++ encName h).length - 2 = (encName h).length := by
        simp only [List.length_append, u16be_length]
        omega
      rw [hdrop, hsub]
      simp only [encRecord, QueryType.to_num]
    · simp only [encRecord, QueryType.to_num, List.length_append, u16be_length,
        u32be_length]
      omega
  | CNAME d h ttl =>
    obtain ⟨hd, hh, _⟩ := hwf
    have heq : write_record (.CNAME d h ttl) b =
        (writeBytes b (encName d ++ u16be QueryType.CNAME.to_num ++ u16be 1 ++ u32be ttl)) >>=
          fun b4 => (writeBytes b4 (u16be 0 ++ encName h)) >>= fun b6 =>
            pure (b6.set_u16 b4.pos ((b6.pos - (b4.pos + 2)) % 65536)) := by
      simp only [write_record]
      simp only [write_qname_eq _ _ hd.labels, write_qname_eq _ _ hh.labels,
        write_u16_eq, write_u32_eq, writeBytes_append,
        Option.bind_eq_bind, Option.bind_assoc, Option.pure_def, Option.bind_some]
    have hsp2 : b.pos +
        (encName d ++ u16be QueryType.CNAME.to_num ++ u16be 1 ++ u32be ttl).length +
        (u16be 0 ++ encName h).length ≤ 512 := by
      simp only [List.length_append, u16be_length, u32be_length]
      simp only [encRecord, List.length_append, u16be_length, u32be_length] at hsp
      omega
    rw [heq, backpatch_emit _ _ _ hlen
      (by simp only [List.length_append, u16be_length]; omega) hsp2 rfl]
    refine congrArg some ?_
    refine congrArg₂ BytePacketBuffer.mk ?_ ?_
    · refine congrArg (overwrite b.buf b.pos) ?_
      have hdrop : (u16be 0 ++ encName h).drop 2 = encName h := rfl
      have hsub : (u16be 0 ++ encName h).length - 2 = (encName h).length := by
        simp only [List.length_append, u16be_length]
        omega
      rw [hdrop, hsub]
      simp only [encRecord, QueryType.to_num]
    · simp only [encRecord, QueryType.to_num, List.length_append, u16be_length,
        u32be_length]
      omega
  | MX d pr h ttl =>
    obtain ⟨hd, hpr, hh, _⟩ := hwf
    have heq : write_record (.MX d pr h ttl) b =
        (writeBytes b (encName d ++ u16be QueryType.MX.to_num ++ u16be 1 ++ u32be ttl)) >>=
          fun b4 => (writeBytes b4 (u16be 0 ++ u16be pr ++ encName h)) >>= fun b6 =>
            pure (b6.set_u16 b4.pos ((b6.pos - (b4.pos + 2)) % 65536)) := by
      simp only [write_record]
      simp only [write_qname_eq _ _ hd.labels, write_qname_eq _ _ hh.labels,
        write_u16_eq, write_u32_eq, writeBytes_append,
        Option.bind_eq_bind, Option.bind_assoc, Option.pure_def, Option.bind_some]
    have hsp2 : b.pos +
        (encName d ++ u16be QueryType.MX.to_num ++ u16be 1 ++ u32be ttl).length +
        (u16be 0 ++ u16be pr ++ encName h).length ≤ 512 := by
      simp only [List.length_append, u16be_length, u32be_length]
      simp only [encRecord, List.length_append, u16be_length, u32be_length] at hsp
      omega
    rw [heq, backpatch_emit _ _ _ hlen
      (by simp only [List.length_append, u16be_length]; omega) hsp2 rfl]
    refine congrArg some ?_
    refine congrArg₂ BytePacketBuffer.mk ?_ ?_
    · refine congrArg (overwrite b.buf b.pos) ?_
      have hdrop : (u16be 0 ++ u16be pr ++ encName h).drop 2 = u16be pr ++ encName h := rfl
      have hsub : (u16be 0 ++ u16be pr ++ encName h).length - 2 =
          2 + (encName h).length := by
        simp only [List.length_append, u16be_length]
        omega
      rw [hdrop, hsub]
      simp only [encRecord, QueryType.to_num]
      simp [List.append_assoc]
    · simp only [encRecord, QueryType.to_num, List.length_append, u16be_length,
        u32be_length]
      omega

theorem foldlM_questions_emit :
    ∀ (qs : List DnsQuestion) (b : BytePacketBuffer),
      (∀ q ∈ qs, NameWf q.name) → b.buf.length = 512 →
      b.pos + (qs.flatMap encQuestion).length ≤ 512 →
      qs.foldlM (fun b q => write_question q b) b =
        some ⟨overwrite b.buf b.pos (qs.flatMap encQuestion),
              b.pos + (qs.flatMap encQuestion).length⟩ := by
  intro qs
  induction qs with
  | nil =>
    intro b _ _ _
    show some b = _
    refine congrArg some ?_
    unfold overwrite
    cases b with
    | mk bl bp => simp [List.take_append_drop]
  | cons q rest ih =>
    intro b hwf hlen hsp
    rw [List.foldlM_cons]
    have hq : NameWf q.name := hwf q (List.mem_cons_self _ _)
    have hsp1 : b.pos + (encQuestion q).length ≤ 512 := by
      simp only [List.flatMap_cons, List.length_append] at hsp
      omega
    rw [write_question_eq _ _ hq.labels, writeBytes_emit _ _ hlen hsp1]
    simp only [Option.bind_eq_bind, Option.some_bind]
    have hlen2 : (⟨overwrite b.buf b.pos (encQuestion q),
        b.pos + (encQuestion q).length⟩ : BytePacketBuffer).buf.length = 512 := by
      show (overwrite b.buf b.pos (encQuestion q)).length = 512
      rw [overwrite_length _ _ _ (by omega)]
      exact hlen
    have hsp2 : (⟨overwrite b.buf b.pos (encQuestion q),
        b.pos + (encQuestion q).length⟩ : BytePacketBuffer).pos +
        (rest.flatMap encQuestion).length ≤ 512 := by
      show b.pos + (encQuestion q).length + (rest.flatMap encQuestion).length ≤ 512
      simp only [List.flatMap_cons, List.length_append] at hsp
      omega
    rw [ih _ (fun x hx => hwf x (List.mem_cons_of_mem _ hx)) hlen2 hsp2]
    refine congrArg some ?_
    refine congrArg₂ BytePacketBuffer.mk ?_ ?_
    · show overwrite (overwrite b.buf b.pos (encQuestion q))
        (b.pos + (encQuestion q).length) (rest.flatMap encQuestion) = _
      rw [overwrite_append _ _ _ _ (by
        simp only [List.flatMap_cons, List.length_append] at hsp
        omega)]
      rw [List.flatMap_cons]
    · show b.pos + (encQuestion q).length + (rest.flatMap encQuestion).length = _
      simp only [List.flatMap_cons, List.length_append]
      omega

theorem foldlM_records_emit :
    ∀ (rs : List DnsRecord) (b : BytePacketBuffer),
      (∀ r ∈ rs, RecordWf r) → b.buf.length = 512 →
      b.pos + (rs.flatMap encRecord).length ≤ 512 →
      rs.foldlM (fun b r => write_record r b) b =
        some ⟨overwrite b.buf b.pos (rs.flatMap encRecord),
              b.pos + (rs.flatMap encRecord).length⟩ := by
  intro rs
  induction rs with
  | nil =>
    intro b _ _ _
    show some b = _
    refine congrArg some ?_
    unfold overwrite
    cases b with
    | mk bl bp => simp [List.take_append_drop]
  | cons r rest ih =>
    intro b hwf hlen hsp
    rw [List.foldlM_cons]
    have hr : RecordWf r := hwf r (List.mem_cons_self _ _)
    have hsp1 : b.pos + (encRecord r).length ≤ 512 := by
      simp only [List.flatMap_cons, List.length_append] at hsp
      omega
    rw [write_record_emit _ _ hr hlen hsp1]
    simp only [Option.bind_eq_bind, Option.some_bind]
    have hlen2 : (⟨overwrite b.buf b.pos (encRecord r),
        b.pos + (encRecord r).length⟩ : BytePacketBuffer).buf.length = 512 := by
      show (overwrite b.buf b.pos (encRecord r)).length = 512
      rw [overwrite_length _ _ _ (by omega)]
      exact hlen
    have hsp2 : (⟨overwrite b.buf b.pos (encRecord r),
        b.pos + (encRecord r).length⟩ : BytePacketBuffer).pos +
        (rest.flatMap encRecord).length ≤ 512 := by
      show b.pos + (encRecord r).length + (rest.flatMap encRecord).length ≤ 512
      simp only [List.flatMap_cons, List.length_append] at hsp
      omega
    rw [ih _ (fun x hx => hwf x (List.mem_cons_of_mem _ hx)) hlen2 hsp2]
    refine congrArg some ?_
    refine congrArg₂ BytePacketBuffer.mk ?_ ?_
    · show overwrite (overwrite b.buf b.pos (encRecord r))
        (b.pos + (encRecord r).length) (rest.flatMap encRecord) = _
      rw [overwrite_append _ _ _ _ (by
        simp only [List.flatMap_cons, List.length_append] at hsp
        omega)]
      rw [List.flatMap_cons]
    · show b.pos + (encRecord r).length + (rest.flatMap encRecord).length = _
      simp only [List.flatMap_cons, List.length_append]
      omega

theorem encHeader_length (h : DnsHeader) : (encHeader h).length = 12 := rfl

theorem write_packet_emit (p : DnsPacket) (buf : List Nat)
    (hbuf : buf.length = 512) (hwf : PacketFieldsWf p)
    (hsp : (encPacket p).length ≤ 512) :
    write_packet buf p = some (overwrite buf 0 (encPacket p), (encPacket p).length) := by
  obtain ⟨hhd, hq, ha, hauth, hres⟩ := hwf
  have hsplit : (encPacket p).length = 12 + (p.questions.flatMap encQuestion).length +
      (p.answers.flatMap encRecord).length + (p.authorities.flatMap encRecord).length +
      (p.resources.flatMap encRecord).length := by
    simp only [encPacket, List.length_append, encHeader_length]
  have recStep : ∀ (pre : List Nat) (rs : List DnsRecord), (∀ r ∈ rs, RecordWf r) →
      pre.length + (rs.flatMap encRecord).length ≤ 512 →
      rs.foldlM (fun b r => write_record r b) ⟨overwrite buf 0 pre, pre.length⟩ =
        some ⟨overwrite buf 0 (pre ++ rs.flatMap encRecord),
              (pre ++ rs.flatMap encRecord).length⟩ := by
    intro pre rs hwfr hsp2
    have hlen2 : (⟨overwrite buf 0 pre, pre.length⟩ : BytePacketBuffer).buf.length = 512 := by
      show (overwrite buf 0 pre).length = 512
      rw [overwrite_length _ _ _ (by omega)]
      exact hbuf
    rw [foldlM_records_emit rs _ hwfr hlen2
      (by show pre.length + _ ≤ 512; omega)]
    refine congrArg some (congrArg₂ BytePacketBuffer.mk ?_ ?_)
    · show overwrite (overwrite buf 0 pre) pre.length (rs.flatMap encRecord) = _
      have ap := overwrite_append buf pre (rs.flatMap encRecord) 0 (by omega)
      rw [Nat.zero_add] at ap
      exact ap
    · show pre.length + (rs.flatMap encRecord).length = _
      simp [List.length_append]
  have qStep : ∀ (pre : List Nat) (qs : List DnsQuestion), (∀ q ∈ qs, NameWf q.name) →
      pre.length + (qs.flatMap encQuestion).length ≤ 512 →
      qs.foldlM (fun b q => write_question q b) ⟨overwrite buf 0 pre, pre.length⟩ =
        some ⟨overwrite buf 0 (pre ++ qs.flatMap encQuestion),
              (pre ++ qs.flatMap encQuestion).length⟩ := by
    intro pre qs hwfq hsp2
    have hlen2 : (⟨overwrite buf 0 pre, pre.length⟩ : BytePacketBuffer).buf.length = 512 := by
      show (overwrite buf 0 pre).length = 512
      rw [overwrite_length _ _ _ (by omega)]
      exact hbuf
    rw [foldlM_questions_emit qs _ hwfq hlen2
      (by show pre.length + _ ≤ 512; omega)]
    refine congrArg some (congrArg₂ BytePacketBuffer.mk ?_ ?_)
    · show overwrite (overwrite buf 0 pre) pre.length (qs.flatMap encQuestion) = _
      have ap := overwrite_append buf pre (qs.flatMap encQuestion) 0 (by omega)
      rw [Nat.zero_add] at ap
      exact ap
    · show pre.length + (qs.flatMap encQuestion).length = _
      simp [List.length_append]
  unfold write_packet
  dsimp only
  rw [write_header_eq]
  have h0 : (⟨buf, 0⟩ : BytePacketBuffer).buf.length = 512 := hbuf
  rw [writeBytes_emit _ _ h0 (by simp [encHeader_length])]
  simp only [Option.bind_eq_bind, Option.some_bind, Nat.zero_add]
  rw [qStep (encHeader p.header) p.questions (fun q hq2 => (hq q hq2).1)
    (by rw [encHeader_length]; omega)]
  simp only [Option.some_bind]
  rw [recStep _ p.answers ha
    (by simp only [List.length_append, encHeader_length]; omega)]
  simp only [Option.some_bind]
  rw [recStep _ p.authorities hauth
    (by simp only [List.length_append, encHeader_length]; omega)]
  simp only [Option.some_bind]
  rw [recStep _ p.resources hres
    (by simp only [List.length_append, encHeader_length]; omega)]
  simp only [Option.some_bind, Option.pure_def]
  rfl

/-- Claim C4 (amended): the encoder writes the header struct's four count
fields verbatim into the four count words — it neither overrides them with the
section lengths nor fails when they disagree.  The emitted packet starts with
`encHeader`, whose bytes at offsets 4..11 are the big-endian struct fields
`questions`, `answers`, `authoritative_entries`, `resource_entries`. -/
theorem write_packet_header_counts (p : DnsPacket) (buf : List Nat)
    (hbuf : buf.length = 512) (hwf : PacketFieldsWf p)
    (hsp : (encPacket p).length ≤ 512) :
    write_packet buf p = some (overwrite buf 0 (encPacket p), (encPacket p).length) ∧
      (encPacket p).take 12 = encHeader p.header ∧
      ((encHeader p.header).drop 4).take 8 =
        u16be p.header.questions ++ u16be p.header.answers ++
          u16be p.header.authoritative_entries ++ u16be p.header.resource_entries := by
  refine ⟨write_packet_emit p buf hbuf hwf hsp, ?_, ?_⟩
  · have hshape : encPacket p = encHeader p.header ++
        (p.questions.flatMap encQuestion ++ (p.answers.flatMap encRecord ++
          (p.authorities.flatMap encRecord ++ p.resources.flatMap encRecord))) := by
      simp [encPacket, List.append_assoc]
    rw [hshape]
    rw [show (12 : Nat) = (encHeader p.header).length from (encHeader_length _).symm]
    exact List.take_left _ _
  · rfl

/-- Witness for C4: a packet whose question count field is 5 with an empty
question section is accepted and emitted with the field value 5. -/
theorem write_packet_header_counts_witness :
    PacketFieldsWf countMismatchPacket ∧
      (encPacket countMismatchPacket).length ≤ 512 ∧
      (write_packet (List.replicate 512 0) countMismatchPacket =
          some (overwrite (List.replicate 512 0) 0 (encPacket countMismatchPacket),
            (encPacket countMismatchPacket).length) ∧
        (encPacket countMismatchPacket).take 12 = encHeader countMismatchPacket.header ∧
        ((encHeader countMismatchPacket.header).drop 4).take 8 =
          u16be countMismatchPacket.header.questions ++
            u16be countMismatchPacket.header.answers ++
            u16be countMismatchPacket.header.authoritative_entries ++
            u16be countMismatchPacket.header.resource_entries) :=
  ⟨by decide, by decide,
    write_packet_header_counts countMismatchPacket (List.replicate 512 0)
      (by simp only [List.length_replicate]) (by decide) (by decide)⟩

/-- Counterexample to C4 as frozen: the claim says the emitted count words
carry the section lengths; on `countMismatchPacket` the emitted question-count
word is 5 although the question section is empty. -/
theorem write_counts_counterexample :
    (write_packet (List.replicate 512 0) countMismatchPacket).map
        (fun r => ((r.1.take r.2).drop 4).take 2) = some [0, 5] ∧
      countMismatchPacket.questions.length = 0 := by
  refine ⟨?_, rfl⟩
  decide

set_option maxRecDepth 8192 in
/-- Counterexample to C7 as frozen: a name whose encoded form has 257 octets
(above the claimed 255 bound) is accepted by `write_qname`. -/
theorem write_qname_255_counterexample :
    255 < (encName longName).length ∧
      BytePacketBuffer.write_qname ⟨List.replicate 512 0, 0⟩ longName ≠ none := by
  refine ⟨by decide, ?_⟩
  rw [write_qname_eq _ _ (by decide)]
  rw [writeBytes_emit _ _ (by simp only [List.length_replicate]) (by decide)]
  simp

/-! ### Decoding the encoder output -/

theorem and_255_eq_mod (v : Nat) : v &&& 255 = v % 256 := by
  have h := Nat.and_pow_two_sub_one_eq_mod v 8
  norm_num at h
  exact h

theorem be_u16_u16be (v : Nat) (rest : List Nat) (hv : v < 65536) :
    be_u16 (u16be v ++ rest) = .ok rest v := by
  show PR.ok rest (((v >>> 8) % 256) * 256 + (v &&& 255)) = _
  rw [and_255_eq_mod, Nat.shiftRight_eq_div_pow]
  norm_num
  omega

theorem be_u32_u32be (v : Nat) (rest : List Nat) (hv : v < 2 ^ 32) :
    be_u32 (u32be v ++ rest) = .ok rest v := by
  show PR.ok rest (((v >>> 24) &&& 255) * 2 ^ 24 + ((v >>> 16) &&& 255) * 2 ^ 16 +
    ((v >>> 8) &&& 255) * 256 + (v &&& 255)) = _
  rw [and_255_eq_mod, and_255_eq_mod, and_255_eq_mod, and_255_eq_mod,
    Nat.shiftRight_eq_div_pow, Nat.shiftRight_eq_div_pow, Nat.shiftRight_eq_div_pow]
  norm_num
  omega

theorem take_bytes_exact (l rest : List Nat) :
    take_bytes l.length (l ++ rest) = .ok rest l := by
  unfold take_bytes
  rw [if_pos (by simp)]
  rw [List.take_left, List.drop_left]

theorem splitOn_46_ne_nil (n : List Nat) : List.splitOn 46 n ≠ [] := by
  intro hs
  have h := List.intercalate_splitOn n 46
  rw [hs] at h
  have hn : n = [] := by simpa [List.intercalate] using h.symm
  subst hn
  exact absurd hs (by decide)

theorem flatMap_cons46 :
    ∀ ls : List (List Nat), ls ≠ [] →
      ls.flatMap (fun x => 46 :: x) = 46 :: List.intercalate [46] ls
  | [], h => absurd rfl h
  | [a], _ => by simp [List.intercalate]
  | a :: b :: t, _ => by
    have ih := flatMap_cons46 (b :: t) (by simp)
    rw [List.flatMap_cons, ih]
    simp only [List.intercalate, List.intersperse]
    simp

theorem isperse_splitOn (n : List Nat) : isperse (List.splitOn 46 n) = n := by
  unfold isperse
  have hfold : ∀ (ls : List (List Nat)) (acc : List Nat),
      List.foldl (fun acc x => acc ++ 46 :: x) acc ls =
        acc ++ ls.flatMap (fun x => 46 :: x) := by
    intro ls
    induction ls with
    | nil => intro acc; simp
    | cons a t ih =>
      intro acc
      rw [List.foldl_cons, ih, List.flatMap_cons]
      simp
  rw [hfold]
  rw [flatMap_cons46 _ (splitOn_46_ne_nil n)]
  simp only [List.nil_append, List.drop_succ_cons, List.drop_zero]
  exact List.intercalate_splitOn n 46

theorem many0Fragments_encLabels :
    ∀ labels : List (List Nat),
      many0Fragments (labels.flatMap fun l => l.length :: l) =
        ([], labels.map utf8Lossy) := by
  intro labels
  induction labels with
  | nil => exact many0Fragments_nil
  | cons l t ih =>
    rw [List.flatMap_cons]
    have hdf : domain_fragment ((l.length :: l) ++ t.flatMap fun x => x.length :: x) =
        .ok (t.flatMap fun x => x.length :: x) (utf8Lossy l) := by
      show domain_fragment (l.length :: (l ++ _)) = _
      rw [domain_fragment]
      rw [if_pos (by simp)]
      rw [List.take_left, List.drop_left]
    rw [many0Fragments_step hdf, ih]
    simp

theorem encName_inner_bytes {n : List Nat} (hwf : NameWf n) :
    ∀ b ∈ (List.splitOn 46 n).flatMap (fun l => l.length :: l),
      b ≠ 0x00 ∧ b ≠ 0xc0 := by
  intro b hb
  rw [List.mem_flatMap] at hb
  obtain ⟨l, hl, hbl⟩ := hb
  obtain ⟨hne, hlen, hbytes⟩ := hwf.2 l hl
  rcases List.mem_cons.mp hbl with h1 | h2
  · subst h1
    constructor
    · intro h0
      exact hne (List.length_eq_zero.mp h0)
    · intro hc
      omega
  · obtain ⟨hpos, hlt⟩ := hbytes b h2
    constructor <;> omega

theorem domain_name_encName (orig : List Nat) (fuel : Nat) (n rest : List Nat)
    (hwf : NameWf n) :
    domain_name orig (fuel + 1) (encName n ++ rest) = .ok rest n := by
  have hshape : encName n ++ rest =
      ((List.splitOn 46 n).flatMap fun l => l.length :: l) ++ 0x00 :: rest := by
    unfold encName
    simp [List.append_assoc]
  have hb := encName_inner_bytes hwf
  have hscan := nameScan_inline ((List.splitOn 46 n).flatMap fun l => l.length :: l)
    rest (fun b hbm => (hb b hbm).1) (fun b hbm => (hb b hbm).2)
  simp only [domain_name, hshape, hscan]
  rw [many0Fragments_encLabels]
  simp only [NULL_BYTE, JUMP_REQUIRED_FLAG]
  norm_num
  have hmap : (List.splitOn 46 n).map utf8Lossy = List.splitOn 46 n := by
    have hcong : ∀ l' ∈ List.splitOn 46 n, utf8Lossy l' = id l' :=
      fun l' hl' => utf8Lossy_ascii l' (fun b2 hb2 => ((hwf.2 l' hl').2.2 b2 hb2).2)
    rw [List.map_congr_left hcong, List.map_id]
  rw [hmap, isperse_splitOn]

theorem testBit_mul_pow_add (b a n i : Nat) (ha : a < 2 ^ n) :
    (b * 2 ^ n + a).testBit i = if i < n then a.testBit i else b.testBit (i - n) := by
  rcases lt_or_ge i n with hi | hi
  · rw [if_pos hi]
    rw [Nat.testBit_to_div_mod, Nat.testBit_to_div_mod]
    have hn : n - i - 1 + 1 + i = n := by omega
    have hsplit : b * 2 ^ n = 2 * (b * 2 ^ (n - i - 1)) * 2 ^ i := by
      conv_lhs => rw [← hn]
      rw [pow_add, pow_add]
      ring
    rw [hsplit]
    have hdiv : (2 * (b * 2 ^ (n - i - 1)) * 2 ^ i + a) / 2 ^ i =
        2 * (b * 2 ^ (n - i - 1)) + a / 2 ^ i := by
      rw [mul_comm (2 * (b * 2 ^ (n - i - 1))) (2 ^ i)]
      rw [Nat.mul_add_div (Nat.two_pow_pos i)]
    rw [hdiv, Nat.mul_add_mod]
  · rw [if_neg (Nat.not_lt.mpr hi)]
    rw [Nat.testBit_to_div_mod, Nat.testBit_to_div_mod]
    have h0 : (b * 2 ^ n + a) / 2 ^ n = b := by
      rw [mul_comm b (2 ^ n), Nat.mul_add_div (Nat.two_pow_pos n), Nat.div_eq_of_lt ha,
        Nat.add_zero]
    have hpow : (2 : Nat) ^ i = 2 ^ n * 2 ^ (i - n) := by
      rw [← pow_add]
      congr 1
      omega
    rw [hpow, ← Nat.div_div_eq_div_mul, h0]

theorem lor_mul_pow_add (a b n : Nat) (ha : a < 2 ^ n) :
    a ||| b * 2 ^ n = b * 2 ^ n + a := by
  apply Nat.eq_of_testBit_eq
  intro i
  rw [Nat.testBit_lor, testBit_mul_pow_add b a n i ha]
  have hz := testBit_mul_pow_add b 0 n i (Nat.two_pow_pos n)
  rw [Nat.add_zero] at hz
  rcases lt_or_ge i n with hi | hi
  · rw [if_pos hi]
    rw [hz, if_pos hi, Nat.zero_testBit]
    simp
  · rw [if_neg (Nat.not_lt.mpr hi)]
    rw [hz, if_neg (Nat.not_lt.mpr hi)]
    have ha' : a.testBit i = false :=
      Nat.testBit_lt_two_pow (lt_of_lt_of_le ha (Nat.pow_le_pow_right (by norm_num) hi))
    rw [ha']
    simp

theorem flags_eq_add (h : DnsHeader) (hop : h.opcode < 16) :
    h.flags = h.rescode.toNum + 16 * h.checking_disabled.toNat +
      32 * h.authed_data.toNat + 64 * h.z.toNat +
      128 * h.recursion_available.toNat + 256 * h.recursion_desired.toNat +
      512 * h.truncated_message.toNat + 1024 * h.authoritative_answer.toNat +
      2048 * h.opcode + 32768 * h.response.toNat := by
  have hrc : h.rescode.toNum < 16 := by cases h.rescode <;> simp [ResponseCode.toNum]
  have h1 := Bool.toNat_le h.checking_disabled
  have h2 := Bool.toNat_le h.authed_data
  have h3 := Bool.toNat_le h.z
  have h4 := Bool.toNat_le h.recursion_available
  have h5 := Bool.toNat_le h.recursion_desired
  have h6 := Bool.toNat_le h.truncated_message
  have h7 := Bool.toNat_le h.authoritative_answer
  have h8 := Bool.toNat_le h.response
  have hmod : (h.opcode <<< 11) % 65536 = h.opcode <<< 11 := by
    apply Nat.mod_eq_of_lt
    rw [Nat.shiftLeft_eq]
    norm_num
    omega
  unfold DnsHeader.flags
  rw [hmod]
  simp only [Nat.shiftLeft_eq]
  rw [lor_mul_pow_add _ _ 4 (by norm_num; omega)]
  rw [lor_mul_pow_add _ _ 5 (by norm_num; omega)]
  rw [lor_mul_pow_add _ _ 6 (by norm_num; omega)]
  rw [lor_mul_pow_add _ _ 7 (by norm_num; omega)]
  rw [lor_mul_pow_add _ _ 8 (by norm_num; omega)]
  rw [lor_mul_pow_add _ _ 9 (by norm_num; omega)]
  rw [lor_mul_pow_add _ _ 10 (by norm_num; omega)]
  rw [lor_mul_pow_add _ _ 11 (by norm_num; omega)]
  rw [lor_mul_pow_add _ _ 15 (by norm_num; omega)]
  norm_num
  omega

theorem decide_toNat_eq_one (b : Bool) : decide (b.toNat = 1) = b := by
  cases b <;> rfl

theorem decide_pos_and_pow (x i : Nat) :
    decide (0 < x &&& 2 ^ i) = decide (x / 2 ^ i % 2 = 1) := by
  rw [Nat.and_two_pow]
  by_cases hd : x / 2 ^ i % 2 = 1
  · rw [Nat.testBit_to_div_mod]
    simp [hd, Nat.two_pow_pos]
  · rw [Nat.testBit_to_div_mod]
    simp [hd]

theorem decide_pos_and_bit (x i m : Nat) (hm : m = 2 ^ i) :
    decide (0 < x &&& m) = decide (x / m % 2 = 1) := by
  subst hm
  exact decide_pos_and_pow x i

theorem be_u8_cons (b : Nat) (rest : List Nat) : be_u8 (b :: rest) = .ok rest b := rfl

theorem be_u8_u16be (v : Nat) (rest : List Nat) :
    be_u8 (u16be v ++ rest) = .ok ((v &&& 255) :: rest) ((v >>> 8) % 256) := rfl

theorem pHeader_encHeader (h : DnsHeader) (rest : List Nat) (hwf : HeaderFieldsWf h) :
    pHeader (encHeader h ++ rest) = .ok rest h := by
  rcases h with ⟨id, resp, op, aa, tm, rd, ra, z, ad, cd, rc, qs, ans, aus, res⟩
  obtain ⟨hid, hop, hq, han, hau, hre⟩ := hwf
  simp only at hid hop hq han hau hre
  have hfl := flags_eq_add ⟨id, resp, op, aa, tm, rd, ra, z, ad, cd, rc, qs, ans, aus, res⟩ hop
  simp only at hfl
  have hrc : rc.toNum < 16 := by cases rc <;> simp [ResponseCode.toNum]
  have h1 := Bool.toNat_le cd
  have h2 := Bool.toNat_le ad
  have h3 := Bool.toNat_le z
  have h4 := Bool.toNat_le ra
  have h5 := Bool.toNat_le rd
  have h6 := Bool.toNat_le tm
  have h7 := Bool.toNat_le aa
  have h8 := Bool.toNat_le resp
  have e : encHeader ⟨id, resp, op, aa, tm, rd, ra, z, ad, cd, rc, qs, ans, aus, res⟩ ++ rest =
      u16be id ++ (u16be (DnsHeader.flags ⟨id, resp, op, aa, tm, rd, ra, z, ad, cd, rc, qs, ans, aus, res⟩) ++
        (u16be qs ++ (u16be ans ++ (u16be aus ++ (u16be res ++ rest))))) := by
    simp [encHeader, List.append_assoc]
  rw [e]
  generalize hgen :
    DnsHeader.flags ⟨id, resp, op, aa, tm, rd, ra, z, ad, cd, rc, qs, ans, aus, res⟩ = F at hfl ⊢
  have hF8 : F >>> 8 = F / 256 := by
    rw [Nat.shiftRight_eq_div_pow]
  have hand255 : F &&& 255 = F % 256 := by
    rw [show (255 : Nat) = 2 ^ 8 - 1 by norm_num, Nat.and_pow_two_sub_one_eq_mod]
  have hand15 : ∀ x : Nat, x &&& 15 = x % 16 := fun x => by
    rw [show (15 : Nat) = 2 ^ 4 - 1 by norm_num, Nat.and_pow_two_sub_one_eq_mod]
  have hsr3 : ∀ x : Nat, x >>> 3 = x / 8 := fun x => by
    rw [Nat.shiftRight_eq_div_pow]
  simp only [pHeader, fun r => be_u16_u16be id r hid, be_u8_u16be, be_u8_cons,
    fun r => be_u16_u16be qs r hq, fun r => be_u16_u16be ans r han,
    fun r => be_u16_u16be aus r hau, fun r => be_u16_u16be res r hre]
  simp only [Nat.shiftLeft_eq, one_mul]
  rw [PR.ok.injEq]
  refine ⟨rfl, ?_⟩
  rw [DnsHeader.mk.injEq]
  refine ⟨rfl, ?_, ?_, ?_, ?_, ?_, ?_, ?_, ?_, ?_, ?_, rfl, rfl, rfl, rfl⟩
  · rw [decide_pos_and_pow, hF8]
    have hv : F / 256 % 256 / 2 ^ 7 % 2 = resp.toNat := by omega
    rw [hv, decide_toNat_eq_one]
  · rw [hand15, hsr3, hF8]
    omega
  · rw [decide_pos_and_pow, hF8]
    have hv : F / 256 % 256 / 2 ^ 2 % 2 = aa.toNat := by omega
    rw [hv, decide_toNat_eq_one]
  · rw [decide_pos_and_pow, hF8]
    have hv : F / 256 % 256 / 2 ^ 1 % 2 = tm.toNat := by omega
    rw [hv, decide_toNat_eq_one]
  · rw [decide_pos_and_pow, hF8]
    have hv : F / 256 % 256 / 2 ^ 0 % 2 = rd.toNat := by omega
    rw [hv, decide_toNat_eq_one]
  · rw [decide_pos_and_pow, hand255]
    have hv : F % 256 / 2 ^ 7 % 2 = ra.toNat := by omega
    rw [hv, decide_toNat_eq_one]
  · rw [decide_pos_and_pow, hand255]
    have hv : F % 256 / 2 ^ 6 % 2 = z.toNat := by omega
    rw [hv, decide_toNat_eq_one]
  · rw [decide_pos_and_pow, hand255]
    have hv : F % 256 / 2 ^ 5 % 2 = ad.toNat := by omega
    rw [hv, decide_toNat_eq_one]
  · rw [decide_pos_and_pow, hand255]
    have hv : F % 256 / 2 ^ 4 % 2 = cd.toNat := by omega
    rw [hv, decide_toNat_eq_one]
  · rw [hand255, hand15]
    have hv : F % 256 % 16 = rc.toNum := by omega
    rw [hv]
    cases rc <;> rfl

theorem pQuestion_encQuestion (orig : List Nat) (fuel : Nat) (q : DnsQuestion)
    (rest : List Nat) (hn : NameWf q.name) (ht : QTypeWf q.qtype) :
    pQuestion orig (fuel + 1) (encQuestion q ++ rest) = .ok rest q := by
  have e : encQuestion q ++ rest =
      encName q.name ++ (u16be q.qtype.to_num ++ (u16be 1 ++ rest)) := by
    simp [encQuestion, List.append_assoc]
  rw [e]
  simp only [pQuestion, fun r2 => domain_name_encName orig fuel q.name r2 hn,
    fun r2 => be_u16_u16be q.qtype.to_num r2 ht.2,
    fun r2 => be_u16_u16be 1 r2 (by norm_num)]
  rw [ht.1]

theorem length_u16be (v : Nat) : (u16be v).length = 2 := rfl

theorem length_u32be (v : Nat) : (u32be v).length = 4 := rfl

theorem pAnswer_encRecord (orig : List Nat) (fuel : Nat) (r : DnsRecord)
    (rest : List Nat) (hwf : RecordWf r) (hlen : (encRecord r).length < 65536) :
    pAnswer orig (fuel + 1) (encRecord r ++ rest) = .ok rest r := by
  rcases r with ⟨d, a, ttl⟩ | ⟨d, hst, ttl⟩ | ⟨d, hst, ttl⟩ | ⟨d, pr, hst, ttl⟩ |
    ⟨d, a, ttl⟩ | ⟨d, qt, dl, ttl⟩
  · obtain ⟨hd, httl, ho0, ho1, ho2, ho3⟩ := hwf
    have e : encRecord (.A d a ttl) ++ rest =
        encName d ++ (u16be 1 ++ (u16be 1 ++ (u32be ttl ++ (u16be 4 ++
          ([a.o0, a.o1, a.o2, a.o3] ++ rest))))) := by
      simp [encRecord, List.append_assoc]
    rw [e]
    have htb : take_bytes 4 ([a.o0, a.o1, a.o2, a.o3] ++ rest) =
        .ok rest [a.o0, a.o1, a.o2, a.o3] :=
      take_bytes_exact [a.o0, a.o1, a.o2, a.o3] rest
    simp only [pAnswer, fun r2 => domain_name_encName orig fuel d r2 hd,
      fun r2 => be_u16_u16be 1 r2 (by norm_num),
      fun r2 => be_u32_u32be ttl r2 httl,
      fun r2 => be_u16_u16be 4 r2 (by norm_num), htb, QueryType.from_num, if_true, if_false, reduceIte, pIpv4]
  · obtain ⟨hd, hh, httl⟩ := hwf
    have hmod : (encName hst).length % 65536 = (encName hst).length :=
      Nat.mod_eq_of_lt hh.1
    have e : encRecord (.NS d hst ttl) ++ rest =
        encName d ++ (u16be 2 ++ (u16be 1 ++ (u32be ttl ++
          (u16be ((encName hst).length % 65536) ++ (encName hst ++ rest))))) := by
      simp [encRecord, List.append_assoc]
    rw [e]
    have htb : take_bytes ((encName hst).length % 65536) (encName hst ++ rest) =
        .ok rest (encName hst) := by
      rw [hmod]
      exact take_bytes_exact _ _
    have hdn2 : domain_name orig (fuel + 1) (encName hst) = .ok [] hst := by
      have h2 := domain_name_encName orig fuel hst [] hh
      rwa [List.append_nil] at h2
    simp only [pAnswer, fun r2 => domain_name_encName orig fuel d r2 hd,
      fun r2 => be_u16_u16be 2 r2 (by norm_num),
      fun r2 => be_u16_u16be 1 r2 (by norm_num),
      fun r2 => be_u32_u32be ttl r2 httl,
      fun r2 => be_u16_u16be ((encName hst).length % 65536) r2
        (Nat.mod_lt _ (by norm_num)),
      htb, hdn2, QueryType.from_num, if_true, if_false, reduceIte]
    norm_num
  · obtain ⟨hd, hh, httl⟩ := hwf
    have hmod : (encName hst).length % 65536 = (encName hst).length :=
      Nat.mod_eq_of_lt hh.1
    have e : encRecord (.CNAME d hst ttl) ++ rest =
        encName d ++ (u16be 5 ++ (u16be 1 ++ (u32be ttl ++
          (u16be ((encName hst).length % 65536) ++ (encName hst ++ rest))))) := by
      simp [encRecord, List.append_assoc]
    rw [e]
    have htb : take_bytes ((encName hst).length % 65536) (encName hst ++ rest) =
        .ok rest (encName hst) := by
      rw [hmod]
      exact take_bytes_exact _ _
    have hdn2 : domain_name orig (fuel + 1) (encName hst) = .ok [] hst := by
      have h2 := domain_name_encName orig fuel hst [] hh
      rwa [List.append_nil] at h2
    simp only [pAnswer, fun r2 => domain_name_encName orig fuel d r2 hd,
      fun r2 => be_u16_u16be 5 r2 (by norm_num),
      fun r2 => be_u16_u16be 1 r2 (by norm_num),
      fun r2 => be_u32_u32be ttl r2 httl,
      fun r2 => be_u16_u16be ((encName hst).length % 65536) r2
        (Nat.mod_lt _ (by norm_num)),
      htb, hdn2, QueryType.from_num, if_true, if_false, reduceIte]
    norm_num
  · obtain ⟨hd, hpr, hh, httl⟩ := hwf
    have hsmall : 2 + (encName hst).length < 65536 := by
      simp only [encRecord, List.length_append, length_u16be, length_u32be] at hlen
      omega
    have hmod : (2 + (encName hst).length) % 65536 = 2 + (encName hst).length :=
      Nat.mod_eq_of_lt hsmall
    have e : encRecord (.MX d pr hst ttl) ++ rest =
        encName d ++ (u16be 15 ++ (u16be 1 ++ (u32be ttl ++
          (u16be ((2 + (encName hst).length) % 65536) ++
            ((u16be pr ++ encName hst) ++ rest))))) := by
      simp [encRecord, List.append_assoc]
    rw [e]
    have htb : take_bytes ((2 + (encName hst).length) % 65536)
        ((u16be pr ++ encName hst) ++ rest) = .ok rest (u16be pr ++ encName hst) := by
      rw [hmod]
      have h2 := take_bytes_exact (u16be pr ++ encName hst) rest
      rw [show (u16be pr ++ encName hst).length = 2 + (encName hst).length by
        rw [List.length_append, length_u16be]] at h2
      exact h2
    have hdn2 : domain_name orig (fuel + 1) (encName hst) = .ok [] hst := by
      have h2 := domain_name_encName orig fuel hst [] hh
      rwa [List.append_nil] at h2
    simp only [pAnswer, fun r2 => domain_name_encName orig fuel d r2 hd,
      fun r2 => be_u16_u16be 15 r2 (by norm_num),
      fun r2 => be_u16_u16be 1 r2 (by norm_num),
      fun r2 => be_u32_u32be ttl r2 httl,
      fun r2 => be_u16_u16be ((2 + (encName hst).length) % 65536) r2
        (Nat.mod_lt _ (by norm_num)),
      htb, be_u16_u16be pr (encName hst) hpr, hdn2, QueryType.from_num, if_true, if_false, reduceIte]
    norm_num
  · obtain ⟨hd, httl, hs0, hs1, hs2, hs3, hs4, hs5, hs6, hs7⟩ := hwf
    have e : encRecord (.AAAA d a ttl) ++ rest =
        encName d ++ (u16be 28 ++ (u16be 1 ++ (u32be ttl ++ (u16be 16 ++
          ((u16be a.s0 ++ (u16be a.s1 ++ (u16be a.s2 ++ (u16be a.s3 ++
            (u16be a.s4 ++ (u16be a.s5 ++ (u16be a.s6 ++ (u16be a.s7 ++ [])))))))) ++
              rest))))) := by
      simp [encRecord, List.append_assoc]
    rw [e]
    have htb : take_bytes 16
        ((u16be a.s0 ++ (u16be a.s1 ++ (u16be a.s2 ++ (u16be a.s3 ++
          (u16be a.s4 ++ (u16be a.s5 ++ (u16be a.s6 ++ (u16be a.s7 ++ [])))))))) ++ rest) =
        .ok rest (u16be a.s0 ++ (u16be a.s1 ++ (u16be a.s2 ++ (u16be a.s3 ++
          (u16be a.s4 ++ (u16be a.s5 ++ (u16be a.s6 ++ (u16be a.s7 ++ [])))))))) := by
      have h2 := take_bytes_exact (u16be a.s0 ++ (u16be a.s1 ++ (u16be a.s2 ++
        (u16be a.s3 ++ (u16be a.s4 ++ (u16be a.s5 ++ (u16be a.s6 ++ (u16be a.s7 ++ [])))))))) rest
      have hL : (u16be a.s0 ++ (u16be a.s1 ++ (u16be a.s2 ++ (u16be a.s3 ++
          (u16be a.s4 ++ (u16be a.s5 ++ (u16be a.s6 ++ (u16be a.s7 ++ [])))))))).length = 16 := by
        simp [u16be]
      rw [hL] at h2
      exact h2
    simp only [pAnswer, fun r2 => domain_name_encName orig fuel d r2 hd,
      fun r2 => be_u16_u16be 28 r2 (by norm_num),
      fun r2 => be_u16_u16be 1 r2 (by norm_num),
      fun r2 => be_u32_u32be ttl r2 httl,
      fun r2 => be_u16_u16be 16 r2 (by norm_num),
      htb, pIpv6,
      fun r2 => be_u16_u16be a.s0 r2 hs0, fun r2 => be_u16_u16be a.s1 r2 hs1,
      fun r2 => be_u16_u16be a.s2 r2 hs2, fun r2 => be_u16_u16be a.s3 r2 hs3,
      fun r2 => be_u16_u16be a.s4 r2 hs4, fun r2 => be_u16_u16be a.s5 r2 hs5,
      fun r2 => be_u16_u16be a.s6 r2 hs6, fun r2 => be_u16_u16be a.s7 r2 hs7,
      QueryType.from_num, if_true, if_false, reduceIte]
    norm_num
  · exact hwf.elim

theorem countP_encQuestions (orig : List Nat) (fuel : Nat) (qs : List DnsQuestion)
    (rest : List Nat) (hwf : ∀ q ∈ qs, NameWf q.name ∧ QTypeWf q.qtype) :
    countP (pQuestion orig (fuel + 1)) qs.length (qs.flatMap encQuestion ++ rest) =
      .ok rest qs := by
  induction qs with
  | nil => simp [countP]
  | cons q t ih =>
    rw [List.flatMap_cons, List.length_cons, List.append_assoc]
    have hq := hwf q (List.mem_cons_self q t)
    have hstep := pQuestion_encQuestion orig fuel q (t.flatMap encQuestion ++ rest) hq.1 hq.2
    simp only [countP, hstep, ih (fun x hx => hwf x (List.mem_cons_of_mem q hx))]

theorem countP_encRecords (orig : List Nat) (fuel : Nat) (rs : List DnsRecord)
    (rest : List Nat)
    (hwf : ∀ r ∈ rs, RecordWf r ∧ (encRecord r).length < 65536) :
    countP (pAnswer orig (fuel + 1)) rs.length (rs.flatMap encRecord ++ rest) =
      .ok rest rs := by
  induction rs with
  | nil => simp [countP]
  | cons r t ih =>
    rw [List.flatMap_cons, List.length_cons, List.append_assoc]
    have hr := hwf r (List.mem_cons_self r t)
    have hstep := pAnswer_encRecord orig fuel r (t.flatMap encRecord ++ rest) hr.1 hr.2
    simp only [countP, hstep, ih (fun x hx => hwf x (List.mem_cons_of_mem r hx))]

theorem flatMap_mem_length_le (f : DnsRecord → List Nat) (l : List DnsRecord)
    (x : DnsRecord) (hx : x ∈ l) : (f x).length ≤ (l.flatMap f).length := by
  induction l with
  | nil => cases hx
  | cons a t ih =>
    rw [List.flatMap_cons, List.length_append]
    rcases List.mem_cons.mp hx with h1 | h2
    · subst h1
      exact Nat.le_add_right _ _
    · exact Nat.le_trans (ih h2) (Nat.le_add_left _ _)

theorem dns_packet_parse_encPacket (p : DnsPacket) (fuel : Nat)
    (hwf : PacketWf p) (hsz : (encPacket p).length ≤ 512) :
    dns_packet_parse (fuel + 1) (encPacket p) (encPacket p) = .ok [] p := by
  obtain ⟨⟨hhd, hq, ha, hauth, hres⟩, hcm⟩ := hwf
  have hcomp : (p.questions.flatMap encQuestion).length ≤ 512 ∧
      (p.answers.flatMap encRecord).length ≤ 512 ∧
      (p.authorities.flatMap encRecord).length ≤ 512 ∧
      (p.resources.flatMap encRecord).length ≤ 512 := by
    have h0 : (encPacket p).length =
        (encHeader p.header).length + (p.questions.flatMap encQuestion).length +
        (p.answers.flatMap encRecord).length + (p.authorities.flatMap encRecord).length +
        (p.resources.flatMap encRecord).length := by
      simp only [encPacket, List.length_append]
    omega
  have hrecwf : ∀ (rs : List DnsRecord), (rs.flatMap encRecord).length ≤ 512 →
      (∀ r ∈ rs, RecordWf r) → ∀ r ∈ rs, RecordWf r ∧ (encRecord r).length < 65536 := by
    intro rs hle hw r hr
    refine ⟨hw r hr, ?_⟩
    have := flatMap_mem_length_le encRecord rs r hr
    omega
  rcases p with ⟨h, qs, ans, aus, res⟩
  obtain ⟨hc1, hc2, hc3, hc4⟩ := hcm
  simp only at hc1 hc2 hc3 hc4 hhd hq ha hauth hres hcomp
  have e : encPacket ⟨h, qs, ans, aus, res⟩ =
      encHeader h ++ (qs.flatMap encQuestion ++ (ans.flatMap encRecord ++
        (aus.flatMap encRecord ++ (res.flatMap encRecord ++ [])))) := by
    simp [encPacket, List.append_assoc]
  rw [e]
  simp only [dns_packet_parse,
    fun r2 => pHeader_encHeader h r2 hhd, hc1, hc2, hc3, hc4,
    fun r2 => countP_encQuestions (encHeader h ++ (qs.flatMap encQuestion ++
      (ans.flatMap encRecord ++ (aus.flatMap encRecord ++ (res.flatMap encRecord ++ [])))))
      fuel qs r2 hq,
    fun r2 => countP_encRecords (encHeader h ++ (qs.flatMap encQuestion ++
      (ans.flatMap encRecord ++ (aus.flatMap encRecord ++ (res.flatMap encRecord ++ [])))))
      fuel ans r2 (hrecwf ans hcomp.2.1 ha),
    fun r2 => countP_encRecords (encHeader h ++ (qs.flatMap encQuestion ++
      (ans.flatMap encRecord ++ (aus.flatMap encRecord ++ (res.flatMap encRecord ++ [])))))
      fuel aus r2 (hrecwf aus hcomp.2.2.1 hauth),
    fun r2 => countP_encRecords (encHeader h ++ (qs.flatMap encQuestion ++
      (ans.flatMap encRecord ++ (aus.flatMap encRecord ++ (res.flatMap encRecord ++ [])))))
      fuel res r2 (hrecwf res hcomp.2.2.2 hres)]

theorem domain_name_nil (orig : List Nat) (fuel : Nat) :
    domain_name orig (fuel + 1) [] = .err := by
  simp [domain_name, nameScan]

/-- Claim C1 (amended).  For every packet whose fields are in range, whose
header counts agree with its section lengths, which contains no UNKNOWN
record, and whose encoding fits the 512-octet buffer, the encoder succeeds —
the written prefix is exactly `encPacket p` — and the packet parser decodes
that prefix back to the packet itself, for every recursion budget.  (The
QCLASS is not represented in the packet type: the encoder emits class 1 and
the decoder discards the class word, so no normalisation clause is needed.
The claim's allowance for packets with UNKNOWN records is refuted separately:
their encode succeeds but their decode errs instead of returning the packet
without those records.) -/
theorem round_trip (p : DnsPacket) (buf : List Nat) (fuel : Nat)
    (hbuf : buf.length = 512) (hwf : PacketWf p)
    (hsz : (encPacket p).length ≤ 512) :
    ∃ out, write_packet buf p = some (out, (encPacket p).length) ∧
      out.take (encPacket p).length = encPacket p ∧
      dns_packet_parse (fuel + 1) (encPacket p) (encPacket p) = .ok [] p := by
  refine ⟨overwrite buf 0 (encPacket p), ?_, ?_, ?_⟩
  · exact write_packet_emit p buf hbuf hwf.1 hsz
  · exact overwrite_take buf (encPacket p) 0 (by omega)
  · exact dns_packet_parse_encPacket p fuel hwf hsz

set_option maxRecDepth 40000 in
/-- Concrete instance of the C1 round trip: the google.com A query encodes
into 28 octets and decodes back to itself. -/
theorem round_trip_witness :
    (List.replicate 512 0 : List Nat).length = 512 ∧ PacketWf gqPacket ∧
    (encPacket gqPacket).length ≤ 512 ∧
    ∃ out, write_packet (List.replicate 512 0) gqPacket =
        some (out, (encPacket gqPacket).length) ∧
      out.take (encPacket gqPacket).length = encPacket gqPacket ∧
      dns_packet_parse 1 (encPacket gqPacket) (encPacket gqPacket) =
        .ok [] gqPacket :=
  ⟨by simp, by decide, by decide,
    round_trip gqPacket (List.replicate 512 0) 0 (by simp) (by decide) (by decide)⟩

set_option maxRecDepth 40000 in
/-- Claim C1 counterexample: the encoder accepts `unknownRecPacket` (it skips
the UNKNOWN answer but still writes the answer count 1), yet decoding the
written prefix fails for every recursion budget instead of yielding the
packet with the UNKNOWN record absent. -/
theorem round_trip_counterexample :
    (write_packet (List.replicate 512 0) unknownRecPacket =
      some (encPacket unknownRecPacket ++ List.replicate 500 0,
        (encPacket unknownRecPacket).length)) ∧
    (∀ fuel, dns_packet_parse (fuel + 1) (encPacket unknownRecPacket)
        (encPacket unknownRecPacket) = .err) ∧
    (∀ fuel, dns_packet_parse (fuel + 1) (encPacket unknownRecPacket)
        (encPacket unknownRecPacket) ≠
      .ok [] { unknownRecPacket with answers := [] }) := by
  have hph : pHeader (encPacket unknownRecPacket) =
      .ok [] unknownRecPacket.header := by decide
  have hqs : unknownRecPacket.header.questions = 0 := rfl
  have hans : unknownRecPacket.header.answers = 1 := rfl
  have hp : ∀ fuel, dns_packet_parse (fuel + 1) (encPacket unknownRecPacket)
      (encPacket unknownRecPacket) = .err := by
    intro fuel
    have hdn := domain_name_nil (encPacket unknownRecPacket) fuel
    have hpa : pAnswer (encPacket unknownRecPacket) (fuel + 1) [] = .err := by
      simp [pAnswer, hdn]
    simp only [dns_packet_parse, hph, hqs, hans, countP, hpa]
  refine ⟨by decide, hp, ?_⟩
  intro fuel
  rw [hp fuel]
  simp

/-- Claim C8: whenever the nameserver response decoded inside the recursive
engine carries rescode NXDOMAIN, the engine returns that response verbatim on
the spot — no further queries, no delegation — whatever the oracle would
answer elsewhere. -/
theorem recursive_lookup_nxdomain
    (lk : List Nat → QueryType → Ipv4Addr × Nat → Except Unit DnsPacket)
    (fuel : Nat) (qname : List Nat) (qtype : QueryType) (ns : Ipv4Addr × Nat)
    (r : DnsPacket) (hlk : lk qname qtype ns = .ok r)
    (hrc : r.rescode = ResponseCode.NXDOMAIN) :
    recursive_lookup lk (fuel + 1) qname qtype ns = .ok r := by
  have hne : ¬(r.has_answers = true ∧ r.rescode = ResponseCode.NOERROR) := by
    rintro ⟨h1, h2⟩
    rw [hrc] at h2
    exact absurd h2 (by decide)
  simp only [recursive_lookup, hlk]
  rw [if_neg hne, if_pos hrc]

/-- Concrete instance of C8: an oracle that always answers NXDOMAIN makes the
engine return that response after exactly one query. -/
theorem recursive_lookup_nxdomain_witness :
    (fun _ _ _ => (Except.ok nxPacket : Except Unit DnsPacket)) ([] : List Nat)
        QueryType.A ROOT_DNS_SERVER = Except.ok nxPacket ∧
    nxPacket.rescode = ResponseCode.NXDOMAIN ∧
    recursive_lookup (fun _ _ _ => Except.ok nxPacket) 1 [] QueryType.A
        ROOT_DNS_SERVER = .ok nxPacket :=
  ⟨rfl, by decide,
    recursive_lookup_nxdomain (fun _ _ _ => Except.ok nxPacket) 0 [] QueryType.A
      ROOT_DNS_SERVER nxPacket rfl (by decide)⟩

/-- Claim C5: refuted.  When decoding the received datagram fails, the server
iteration does not drop the query and continue: the question-mark operator
propagates the decode error out of the loop and `main` returns, terminating
the server. -/
theorem server_exits_on_parse_error
    (lk : List Nat → QueryType → Ipv4Addr × Nat → Except Unit DnsPacket)
    (fuel : Nat) (datagram : List Nat)
    (h : dnsPacketTryFrom fuel datagram = .err) :
    handle_datagram lk fuel datagram = .exited := by
  simp only [handle_datagram, h]

/-- Concrete instance of C5: the empty datagram does not decode, and the
server loop exits on it. -/
theorem server_exits_on_parse_error_witness :
    dnsPacketTryFrom 1 [] = .err ∧
    handle_datagram (fun _ _ _ => Except.error ()) 1 [] = .exited :=
  ⟨by decide,
    server_exits_on_parse_error (fun _ _ _ => Except.error ()) 1 [] (by decide)⟩
